import Mathlib

/-!
Verification of the binary-decoding and storage-addressing layer of the
`btc-runtime` repository: the `BytesReader` sequential decoder, the
`encodePointer` storage-pointer derivation, and the two storage-facing maps
(`AddressMemoryMap`, `MultiAddressMemoryMap`).

Bytes are modelled as `List Nat` (each entry a byte value), the reader's
mutable `currentOffset` as an explicit `Nat` threaded through every
operation, and each read returns both its outcome (`Except DecodeError α`)
and the offset the cursor holds afterwards — the offset is reported even on
failure, because the source mutates the field before some failing accesses.
-/

/-- Failure modes of a decode step.
`boundsVerify` models the `Error` thrown by `BytesReader.verifyEnd` (its
payload mirrors the message's `size` and `offset`); `boundsAccess` models the
`RangeError` trap raised by an out-of-bounds `DataView` accessor;
`validation` models a thrown `Revert` carrying its message. -/
inductive DecodeError : Type where
  | boundsVerify (size offset : Nat) : DecodeError
  | boundsAccess : DecodeError
  | validation (msg : String) : DecodeError
deriving DecidableEq, Repr

/-- A bounds failure in the sense of the specification's `BoundsError`:
either kind of out-of-bounds failure, but not a structural `Revert`. -/
def DecodeError.isBounds : DecodeError → Bool
  | .boundsVerify _ _ => true
  | .boundsAccess => true
  | .validation _ => false

/-- Outcome of one reader operation: the decoded value or the error, paired
with the cursor offset after the operation. -/
abbrev ReadResult (α : Type) : Type := Except DecodeError α × Nat

deriving instance DecidableEq for Except

deriving instance Repr for Except

/-- The outcome is a success. -/
def exceptOk {α : Type} : Except DecodeError α → Bool
  | .ok _ => true
  | .error _ => false

/-- The outcome is a bounds failure (of either kind). -/
def exceptIsBounds {α : Type} : Except DecodeError α → Bool
  | .ok _ => false
  | .error e => e.isBounds

/-- The outcome is specifically the failure thrown by `verifyEnd`. -/
def exceptIsVerify {α : Type} : Except DecodeError α → Bool
  | .error (.boundsVerify _ _) => true
  | _ => false

/-- Little-endian value of `w` bytes of `buf` starting at `off`
(missing positions read as 0), as computed by the `DataView` accessors. -/
def leVal (buf : List Nat) : Nat → Nat → Nat
  | _, 0 => 0
  | off, w + 1 => buf.getD off 0 + 256 * leVal buf (off + 1) w

/-- Big-endian value of a byte list, as computed by `fromBytesBE` of the
`as-bignum` big-integer types. -/
def beVal (bytes : List Nat) : Nat :=
  bytes.foldl (fun acc b => acc * 256 + b) 0

/-- Two's-complement reinterpretation at width `w` bits, used by the signed
decoders (`readI64`, `readI128`, `readI256`). -/
def toSigned (w n : Nat) : Int :=
  if n < 2 ^ (w - 1) then (n : Int) else (n : Int) - 2 ^ w

/-- `BytesReader.verifyEnd(size)`: throws when the CURRENT offset exceeds the
buffer length; the `size` argument only appears in the error message and is
never compared against anything. -/
def verifyEnd (buf : List Nat) (off size : Nat) : Except DecodeError Unit :=
  if off > buf.length then .error (.boundsVerify size off) else .ok ()

/-- Bounds-checked multi-byte `DataView` accessor (`getUint16/32/64`,
`getFloat32`): traps unless the whole window fits in the buffer; decodes
little-endian when `le`, big-endian otherwise. -/
def dataViewGet (buf : List Nat) (off w : Nat) (le : Bool) : Except DecodeError Nat :=
  if off + w ≤ buf.length then
    .ok (if le then leVal buf off w else beVal ((buf.drop off).take w))
  else .error .boundsAccess

/-- `BytesReader.readU8`: `verifyEnd(offset+1)` then
`buffer.getUint8(currentOffset++)`. The post-increment runs while the
argument is evaluated, so even when `getUint8` traps the offset has already
advanced by one. -/
def readU8 (buf : List Nat) (off : Nat) : ReadResult Nat :=
  match verifyEnd buf off (off + 1) with
  | .error e => (.error e, off)
  | .ok _ =>
    if off + 1 ≤ buf.length then (.ok (buf.getD off 0), off + 1)
    else (.error .boundsAccess, off + 1)

/-- `BytesReader.readU16`: `verifyEnd(offset+2)`, then a little-endian
2-byte `DataView` read, then `offset += 2`. -/
def readU16 (buf : List Nat) (off : Nat) : ReadResult Nat :=
  match verifyEnd buf off (off + 2) with
  | .error e => (.error e, off)
  | .ok _ =>
    match dataViewGet buf off 2 true with
    | .error e => (.error e, off)
    | .ok v => (.ok v, off + 2)

/-- `BytesReader.readU32(le)`: `verifyEnd(offset+4)`, then a 4-byte
`DataView` read with selectable endianness, then `offset += 4`. -/
def readU32 (le : Bool) (buf : List Nat) (off : Nat) : ReadResult Nat :=
  match verifyEnd buf off (off + 4) with
  | .error e => (.error e, off)
  | .ok _ =>
    match dataViewGet buf off 4 le with
    | .error e => (.error e, off)
    | .ok v => (.ok v, off + 4)

/-- `BytesReader.readU64`: `verifyEnd(offset+8)`, then a little-endian
8-byte `DataView` read, then `offset += 8`. -/
def readU64 (buf : List Nat) (off : Nat) : ReadResult Nat :=
  match verifyEnd buf off (off + 8) with
  | .error e => (.error e, off)
  | .ok _ =>
    match dataViewGet buf off 8 true with
    | .error e => (.error e, off)
    | .ok v => (.ok v, off + 8)

/-- `BytesReader.readI64`: as `readU64` but through `getInt64`, i.e. the
same bytes reinterpreted as a two's-complement 64-bit value. -/
def readI64 (buf : List Nat) (off : Nat) : ReadResult Int :=
  match verifyEnd buf off (off + 8) with
  | .error e => (.error e, off)
  | .ok _ =>
    match dataViewGet buf off 8 true with
    | .error e => (.error e, off)
    | .ok v => (.ok (toSigned 64 v), off + 8)

/-- `BytesReader.readFloat`: calls `getFloat32` with NO `verifyEnd`
bounds check, then `offset += 4`. The float is modelled by its 4-byte
little-endian bit pattern. -/
def readFloat (buf : List Nat) (off : Nat) : ReadResult Nat :=
  match dataViewGet buf off 4 true with
  | .error e => (.error e, off)
  | .ok v => (.ok v, off + 4)

/-- `BytesReader.readSelector`: `readU32(false)`, i.e. big-endian. -/
def readSelector (buf : List Nat) (off : Nat) : ReadResult Nat :=
  readU32 false buf off

/-- `BytesReader.readBoolean`: `readU8() !== 0`. -/
def readBoolean (buf : List Nat) (off : Nat) : ReadResult Bool :=
  match readU8 buf off with
  | (.error e, o) => (.error e, o)
  | (.ok v, o) => (.ok (v ≠ 0), o)

/-- `BytesReader.readBytesBE(count)`: a loop of `count` `readU8` calls
collecting the bytes in order. A thrown error propagates, keeping whatever
offset the failing `readU8` left behind. -/
def readBytesBE (buf : List Nat) : Nat → Nat → ReadResult (List Nat)
  | off, 0 => (.ok [], off)
  | off, n + 1 =>
    match readU8 buf off with
    | (.error e, o) => (.error e, o)
    | (.ok b, o) =>
      match readBytesBE buf o n with
      | (.error e, o2) => (.error e, o2)
      | (.ok bs, o2) => (.ok (b :: bs), o2)

/-- `BytesReader.readU256`: `verifyEnd(offset+32)`, then 32 bytes via
`readBytesBE`, combined big-endian by `u256.fromBytesBE`. -/
def readU256 (buf : List Nat) (off : Nat) : ReadResult Nat :=
  match verifyEnd buf off (off + 32) with
  | .error e => (.error e, off)
  | .ok _ =>
    match readBytesBE buf off 32 with
    | (.error e, o) => (.error e, o)
    | (.ok bs, o) => (.ok (beVal bs), o)

/-- `BytesReader.readU128`: `verifyEnd(offset+16)`, then 16 bytes via
`readBytesBE`, combined big-endian by `u128.fromBytesBE`. -/
def readU128 (buf : List Nat) (off : Nat) : ReadResult Nat :=
  match verifyEnd buf off (off + 16) with
  | .error e => (.error e, off)
  | .ok _ =>
    match readBytesBE buf off 16 with
    | (.error e, o) => (.error e, o)
    | (.ok bs, o) => (.ok (beVal bs), o)

/-- `BytesReader.readI128`: as `readU128` through `i128.fromBytesBE`
(two's-complement at 128 bits). -/
def readI128 (buf : List Nat) (off : Nat) : ReadResult Int :=
  match verifyEnd buf off (off + 16) with
  | .error e => (.error e, off)
  | .ok _ =>
    match readBytesBE buf off 16 with
    | (.error e, o) => (.error e, o)
    | (.ok bs, o) => (.ok (toSigned 128 (beVal bs)), o)

/-- `BytesReader.readI256`: as `readU256` through `i256.fromBytesBE`
(two's-complement at 256 bits). -/
def readI256 (buf : List Nat) (off : Nat) : ReadResult Int :=
  match verifyEnd buf off (off + 32) with
  | .error e => (.error e, off)
  | .ok _ =>
    match readBytesBE buf off 32 with
    | (.error e, o) => (.error e, o)
    | (.ok bs, o) => (.ok (toSigned 256 (beVal bs)), o)

/-- Loop body of `BytesReader.readBytes(length, zeroStop)`: one `readU8` per
iteration; with `zeroStop` set, a zero byte makes the method slice off the
collected prefix and BREAK out of the loop (the zero byte itself is already
consumed, the remaining declared bytes are not). -/
def readBytesAux (buf : List Nat) (zeroStop : Bool) : Nat → Nat → ReadResult (List Nat)
  | off, 0 => (.ok [], off)
  | off, n + 1 =>
    match readU8 buf off with
    | (.error e, o) => (.error e, o)
    | (.ok b, o) =>
      if zeroStop ∧ b = 0 then (.ok [], o)
      else
        match readBytesAux buf zeroStop o n with
        | (.error e, o2) => (.error e, o2)
        | (.ok bs, o2) => (.ok (b :: bs), o2)

/-- `BytesReader.readBytes(length, zeroStop)`. -/
def readBytes (buf : List Nat) (off length : Nat) (zeroStop : Bool) : ReadResult (List Nat) :=
  readBytesAux buf zeroStop off length

/-- `BytesReader.readString(length)`: `readBytes(length, true)` passed to
`String.UTF8.decode`; the produced string is modelled by the byte sequence
handed to the UTF-8 decoder. -/
def readString (buf : List Nat) (off length : Nat) : ReadResult (List Nat) :=
  readBytes buf off length true

/-- `BytesReader.readBytesWithLength`: a `readU32` little-endian length
followed by `readBytes(length)` with `zeroStop` defaulted to false. -/
def readBytesWithLength (buf : List Nat) (off : Nat) : ReadResult (List Nat) :=
  match readU32 true buf off with
  | (.error e, o) => (.error e, o)
  | (.ok length, o) => readBytes buf o length false

/-- `BytesReader.readStringWithLength`: a `readU16` length followed by
`readString(length)` (which is zero-stopped). -/
def readStringWithLength (buf : List Nat) (off : Nat) : ReadResult (List Nat) :=
  match readU16 buf off with
  | (.error e, o) => (.error e, o)
  | (.ok length, o) => readString buf o length

/-- Modelled from the spec: `ADDRESS_BYTE_LENGTH` is declared in
`src/types/Address`, which is not among the provided sources; the spec only
says addresses are a fixed-width byte identifier of this width. The value 32
is used here; no claim depends on the specific number. -/
def ADDRESS_BYTE_LENGTH : Nat := 32

/-- An `Address` is its byte content. -/
abbrev Address : Type := List Nat

/-- `BytesReader.readAddress`: a loop of `ADDRESS_BYTE_LENGTH` `readU8`
calls filling the address — byte-for-byte the same loop as `readBytesBE`
with that count. -/
def readAddress (buf : List Nat) (off : Nat) : ReadResult Address :=
  readBytesBE buf off ADDRESS_BYTE_LENGTH

/-- Modelled from the spec: `AddressMap` lives in `src/generic/AddressMap`,
which is not among the provided sources; the spec's duplicate-rejection and
decode behaviour require a map comparing addresses by value. Modelled as an
association list; `addressMapHas` is its membership test. -/
def addressMapHas {α : Type} : List (Address × α) → Address → Bool
  | [], _ => false
  | p :: rest, k => p.1 = k || addressMapHas rest k

/-- Modelled from the spec: `AddressMap.set` — replace the entry of an
existing key, append a new entry otherwise (value-equality on addresses). -/
def addressMapSet {α : Type} : List (Address × α) → Address → α → List (Address × α)
  | [], k, v => [(k, v)]
  | p :: rest, k, v => if p.1 = k then (k, v) :: rest else p :: addressMapSet rest k v

/-- Modelled from the spec: `AddressMap` lookup (first matching entry). -/
def addressMapGet {α : Type} : List (Address × α) → Address → Option α
  | [], _ => none
  | p :: rest, k => if p.1 = k then some p.2 else addressMapGet rest k

/-- Loop body of `BytesReader.readAddressValueTuple`: per iteration an
address, then a u256, then the duplicate check (`Revert('Duplicate address
found in map')`), then `set`. -/
def readAVTLoop (buf : List Nat) :
    Nat → Nat → List (Address × Nat) → ReadResult (List (Address × Nat))
  | off, 0, result => (.ok result, off)
  | off, n + 1, result =>
    match readAddress buf off with
    | (.error e, o) => (.error e, o)
    | (.ok addr, o) =>
      match readU256 buf o with
      | (.error e, o2) => (.error e, o2)
      | (.ok value, o2) =>
        if addressMapHas result addr then
          (.error (.validation "Duplicate address found in map"), o2)
        else readAVTLoop buf o2 n (addressMapSet result addr value)

/-- `BytesReader.readAddressValueTuple`: u16 count then that many
(address, u256) pairs, rejecting duplicate addresses. -/
def readAddressValueTuple (buf : List Nat) (off : Nat) : ReadResult (List (Address × Nat)) :=
  match readU16 buf off with
  | (.error e, o) => (.error e, o)
  | (.ok length, o) => readAVTLoop buf o length []

/-- Inner loop of `BytesReader.readMultiBytesAddressMap`: `responseSize`
length-prefixed blobs pushed in order. -/
def readCallsLoop (buf : List Nat) : Nat → Nat → ReadResult (List (List Nat))
  | off, 0 => (.ok [], off)
  | off, n + 1 =>
    match readBytesWithLength buf off with
    | (.error e, o) => (.error e, o)
    | (.ok response, o) =>
      match readCallsLoop buf o n with
      | (.error e, o2) => (.error e, o2)
      | (.ok calls, o2) => (.ok (response :: calls), o2)

/-- Outer loop of `BytesReader.readMultiBytesAddressMap`: per iteration an
address, a u8 blob count capped at 10 (`Revert('Too many calls.')`), the
blobs, then `map.set(address, calls)` — no duplicate check. -/
def readMBAMLoop (buf : List Nat) :
    Nat → Nat → List (Address × List (List Nat)) → ReadResult (List (Address × List (List Nat)))
  | off, 0, map => (.ok map, off)
  | off, n + 1, map =>
    match readAddress buf off with
    | (.error e, o) => (.error e, o)
    | (.ok addr, o) =>
      match readU8 buf o with
      | (.error e, o2) => (.error e, o2)
      | (.ok responseSize, o2) =>
        if responseSize > 10 then (.error (.validation "Too many calls."), o2)
        else
          match readCallsLoop buf o2 responseSize with
          | (.error e, o3) => (.error e, o3)
          | (.ok calls, o3) => readMBAMLoop buf o3 n (addressMapSet map addr calls)

/-- `BytesReader.readMultiBytesAddressMap`: u8 address count capped at 8
(`Revert('Too many contract called.')`), then the per-address entries. -/
def readMultiBytesAddressMap (buf : List Nat) (off : Nat) :
    ReadResult (List (Address × List (List Nat))) :=
  match readU8 buf off with
  | (.error e, o) => (.error e, o)
  | (.ok size, o) =>
    if size > 8 then (.error (.validation "Too many contract called."), o)
    else readMBAMLoop buf o size []

/-- `encodePointer(uniqueIdentifier, typed)` from `src/runtime/math/abi.ts`:
hash the key bytes, emit `uniqueIdentifier & 0xff`, `(uniqueIdentifier >> 8)
& 0xff`, then the first 30 hash bytes. The host hash (`Sha256.hash`, an
external capability) is an injected parameter; `bytes32` merely repacks the
32 bytes and is left as the byte sequence itself. -/
def encodePointer (sha : List Nat → List Nat) (uniqueIdentifier : Nat) (typed : List Nat) :
    List Nat :=
  uniqueIdentifier % 256 :: uniqueIdentifier / 256 % 256 :: (sha typed).take 30

/-- Modelled from the spec: host storage capability (`Blockchain`
get/set/hasStorageAt are host imports outside this core). State is an
association list from (table pointer, key hash) to stored value. -/
abbrev HostStorage (P V : Type) : Type := List ((Nat × P) × V)

/-- Modelled from the spec: `setStorageAt` persists a value at a slot,
overwriting any previous value there. -/
def setStorageAt {P V : Type} [DecidableEq P] :
    HostStorage P V → Nat → P → V → HostStorage P V
  | [], ptr, keyHash, v => [((ptr, keyHash), v)]
  | e :: rest, ptr, keyHash, v =>
    if e.1 = (ptr, keyHash) then ((ptr, keyHash), v) :: rest
    else e :: setStorageAt rest ptr keyHash v

/-- Modelled from the spec: `getStorageAt` returns the stored value at the
slot, or the supplied default when the slot is absent. -/
def getStorageAt {P V : Type} [DecidableEq P]
    (host : HostStorage P V) (ptr : Nat) (keyHash : P) (defaultValue : V) : V :=
  match (host.find? (fun e => e.1 = (ptr, keyHash))).map (fun e => e.2) with
  | some v => v
  | none => defaultValue

/-- Modelled from the spec: `hasStorageAt` reports whether the slot holds a
value. -/
def hasStorageAt {P V : Type} [DecidableEq P]
    (host : HostStorage P V) (ptr : Nat) (keyHash : P) : Bool :=
  host.any (fun e => e.1 = (ptr, keyHash))

/-- `AddressMemoryMap` (the SingleLevelStore): a table id (`pointer`), a
configured default value, and the key-to-pointer encoding it applies before
every host-storage interaction (`encodePointer(key)` in the source, a
repository function not among the provided sources, hence kept abstract). -/
structure AddressMemoryMap (K P V : Type) : Type where
  pointer : Nat
  defaultValue : V
  encodeKey : K → P

/-- `AddressMemoryMap.set(key, value)`: persist `value` at the key's
pointer via `Blockchain.setStorageAt`. -/
def AddressMemoryMap.set {K P V : Type} [DecidableEq P]
    (m : AddressMemoryMap K P V) (host : HostStorage P V) (key : K) (value : V) :
    HostStorage P V :=
  setStorageAt host m.pointer (m.encodeKey key) value

/-- `AddressMemoryMap.get(key)`: query host storage at the key's pointer,
falling back to the configured default. -/
def AddressMemoryMap.get {K P V : Type} [DecidableEq P]
    (m : AddressMemoryMap K P V) (host : HostStorage P V) (key : K) : V :=
  getStorageAt host m.pointer (m.encodeKey key) m.defaultValue

/-- `AddressMemoryMap.has(key)`: host-storage existence at the key's
pointer. -/
def AddressMemoryMap.has {K P V : Type} [DecidableEq P]
    (m : AddressMemoryMap K P V) (host : HostStorage P V) (key : K) : Bool :=
  hasStorageAt host m.pointer (m.encodeKey key)

/-- `AddressMemoryMap.delete(key)`: `this.set(key, this.defaultValue)` and
return true — a tombstone write, not a removal. -/
def AddressMemoryMap.delete {K P V : Type} [DecidableEq P]
    (m : AddressMemoryMap K P V) (host : HostStorage P V) (key : K) :
    HostStorage P V × Bool :=
  (m.set host key m.defaultValue, true)

/-- Modelled from the spec: `Uint8ArrayMerger` (the Aggregator) lives in
`src/runtime/memory/Uint8ArrayMerger.ts`, not among the provided sources; it
accumulates secondary-key → value pairs for one primary key. Only the
identity of the aggregator matters to the claims, so it is a container of
its construction data plus its entries. -/
structure Uint8ArrayMerger (V : Type) : Type where
  parentKey : List Nat
  pointer : Nat
  defaultValue : V
  entries : List (List Nat × V)
deriving DecidableEq, Repr

/-- `MultiAddressMemoryMap` (the TwoLevelStore): table id, default value,
and the in-memory primary-key → aggregator entries of the underlying
`Map`. -/
structure MultiAddressMemoryMap (V : Type) : Type where
  pointer : Nat
  defaultValue : V
  entries : List (List Nat × Uint8ArrayMerger V)

/-- `MultiAddressMemoryMap.createKeyMerger(key)`: if no entry exists for
`key`, insert a fresh empty `Uint8ArrayMerger(key, pointer, defaultValue)`;
otherwise leave the map untouched. -/
def MultiAddressMemoryMap.createKeyMerger {V : Type}
    (m : MultiAddressMemoryMap V) (key : List Nat) : MultiAddressMemoryMap V :=
  if addressMapHas m.entries key then m
  else { m with entries :=
          addressMapSet m.entries key (Uint8ArrayMerger.mk key m.pointer m.defaultValue []) }

/-- `MultiAddressMemoryMap.set(key, value)`: `createKeyMerger(key)` first,
then an unconditional `super.set(key, value)`. -/
def MultiAddressMemoryMap.set {V : Type}
    (m : MultiAddressMemoryMap V) (key : List Nat) (value : Uint8ArrayMerger V) :
    MultiAddressMemoryMap V :=
  let m2 := m.createKeyMerger key
  { m2 with entries := addressMapSet m2.entries key value }

/-- Little-endian u16 wire bytes of a count `n < 65536`. -/
def u16LE (n : Nat) : List Nat :=
  [n % 256, n / 256 % 256]

/-- Little-endian u32 wire bytes of a length `n < 2^32`. -/
def u32LE (n : Nat) : List Nat :=
  [n % 256, n / 256 % 256, n / 65536 % 256, n / 16777216 % 256]

/-- Wire encoding of one (address, u256-chunk) pair of an address→u256 map:
the address bytes followed by the 32 value bytes. -/
def encodeAVTPair (p : List Nat × List Nat) : List Nat :=
  p.1 ++ p.2

/-- Wire encoding of an address→u256 map: u16 count then the pairs. -/
def encodeAVT (pairs : List (List Nat × List Nat)) : List Nat :=
  u16LE pairs.length ++ (pairs.map encodeAVTPair).flatten

/-- Wire encoding of one length-prefixed blob: u32 length then the bytes. -/
def encodeBlob (b : List Nat) : List Nat :=
  u32LE b.length ++ b

/-- Wire encoding of one call-batch entry: address, u8 blob count, blobs. -/
def encodeMBAMEntry (e : List Nat × List (List Nat)) : List Nat :=
  e.1 ++ e.2.length :: (e.2.map encodeBlob).flatten

/-- Wire encoding of a call batch: u8 address count then the entries. -/
def encodeMBAM (entries : List (List Nat × List (List Nat))) : List Nat :=
  entries.length :: (entries.map encodeMBAMEntry).flatten

/-- Specification-side companion of the `readAddressValueTuple` loop: insert
the decoded pairs one by one, failing exactly when a pair's address is
already present. -/
def insertPairs (acc : List (Address × Nat)) :
    List (Address × Nat) → Except DecodeError (List (Address × Nat))
  | [] => .ok acc
  | p :: rest =>
    if addressMapHas acc p.1 then .error (.validation "Duplicate address found in map")
    else insertPairs (addressMapSet acc p.1 p.2) rest

/-- Specification-side companion of the `readMultiBytesAddressMap` loop: the
decoded entries written into the map in order by `AddressMap.set`, so a later
entry overwrites an earlier one with the same address. -/
def mbamFold (entries : List (Address × List (List Nat))) :
    List (Address × List (List Nat)) :=
  entries.foldl (fun m e => addressMapSet m e.1 e.2) []

/-- The contract of a fixed-width read of declared width `w` starting at
`off` in a buffer of `len` bytes: when `w` bytes remain it succeeds and
advances the offset by exactly `w`; when fewer than `w` bytes remain it
fails with a bounds failure. -/
def FixedRead {α : Type} (r : ReadResult α) (off w len : Nat) : Prop :=
  (w ≤ len - off → ∃ v, r = (Except.ok v, off + w)) ∧
  (len - off < w → exceptIsBounds r.1 = true)

theorem drop_cons_getD (buf : List Nat) : ∀ (off : Nat), off < buf.length →
    buf.drop off = buf.getD off 0 :: buf.drop (off + 1) := by
  induction buf with
  | nil => intro off h; simp at h
  | cons a t ih =>
    intro off h
    cases off with
    | zero => simp
    | succ k =>
      have hk : k < t.length := by simpa using h
      simpa using ih k hk

theorem readU8_lt (buf : List Nat) (off : Nat) (h : off < buf.length) :
    readU8 buf off = (.ok (buf.getD off 0), off + 1) := by
  have h1 : ¬ off > buf.length := by omega
  have h2 : off + 1 ≤ buf.length := h
  simp [readU8, verifyEnd, h1, h2]

theorem readU8_at_end (buf : List Nat) (off : Nat) (h : off = buf.length) :
    readU8 buf off = (.error .boundsAccess, off + 1) := by
  have h1 : ¬ off > buf.length := by omega
  have h2 : ¬ off + 1 ≤ buf.length := by omega
  simp [readU8, verifyEnd, h1, h2]

theorem readU8_past (buf : List Nat) (off : Nat) (h : buf.length < off) :
    readU8 buf off = (.error (.boundsVerify (off + 1) off), off) := by
  simp [readU8, verifyEnd, h]

theorem readBytesBE_ok (buf : List Nat) : ∀ (n off : Nat), off + n ≤ buf.length →
    readBytesBE buf off n = (.ok ((buf.drop off).take n), off + n) := by
  intro n
  induction n with
  | zero => intro off h; simp [readBytesBE]
  | succ m ih =>
    intro off h
    have hlt : off < buf.length := by omega
    rw [readBytesBE]
    simp only [readU8_lt buf off hlt]
    rw [ih (off + 1) (by omega), drop_cons_getD buf off hlt]
    simp
    omega

theorem readBytesBE_err_trap (buf : List Nat) : ∀ (n off : Nat),
    off ≤ buf.length → buf.length < off + n →
    readBytesBE buf off n = (.error .boundsAccess, buf.length + 1) := by
  intro n
  induction n with
  | zero => intro off h1 h2; omega
  | succ m ih =>
    intro off h1 h2
    rw [readBytesBE]
    rcases Nat.lt_or_ge off buf.length with hlt | hge
    · simp only [readU8_lt buf off hlt]
      rw [ih (off + 1) (by omega) (by omega)]
    · have heq : off = buf.length := by omega
      rw [readU8_at_end buf off heq, heq]

theorem readBytesBE_err_verify (buf : List Nat) (n off : Nat)
    (h : buf.length < off) (hn : 0 < n) :
    readBytesBE buf off n = (.error (.boundsVerify (off + 1) off), off) := by
  cases n with
  | zero => omega
  | succ m =>
    rw [readBytesBE, readU8_past buf off h]

theorem readBytesAux_false (buf : List Nat) : ∀ (n off : Nat),
    readBytesAux buf false off n = readBytesBE buf off n := by
  intro n
  induction n with
  | zero => intro off; rfl
  | succ m ih =>
    intro off
    rw [readBytesAux, readBytesBE]
    rcases hu : readU8 buf off with ⟨r, o⟩
    cases r with
    | error e => simp
    | ok b => simp [ih o]

theorem readBytesAux_zeroStop (buf : List Nat) : ∀ (i n off : Nat),
    i < n → (∀ j, j < i → buf.getD (off + j) 0 ≠ 0) →
    off + i < buf.length → buf.getD (off + i) 0 = 0 →
    readBytesAux buf true off n = (.ok ((buf.drop off).take i), off + i + 1) := by
  intro i
  induction i with
  | zero =>
    intro n off hn hnz hlt hz
    cases n with
    | zero => omega
    | succ m =>
      have hlt' : off < buf.length := by simpa using hlt
      have hz' : buf.getD off 0 = 0 := by simpa using hz
      rw [readBytesAux, readU8_lt buf off hlt', hz']
      simp
  | succ k ih =>
    intro n off hn hnz hlt hz
    cases n with
    | zero => omega
    | succ m =>
      have h0 : off < buf.length := by omega
      have hb : ¬ buf.getD off 0 = 0 := by
        have := hnz 0 (by omega)
        simpa using this
      have hnz' : ∀ j, j < k → buf.getD (off + 1 + j) 0 ≠ 0 := by
        intro j hj
        have := hnz (j + 1) (by omega)
        rwa [show off + (j + 1) = off + 1 + j by omega] at this
      have hlt' : off + 1 + k < buf.length := by omega
      have hz' : buf.getD (off + 1 + k) 0 = 0 := by
        rwa [show off + (k + 1) = off + 1 + k by omega] at hz
      rw [readBytesAux]
      simp only [readU8_lt buf off h0, hb]
      rw [ih m (off + 1) (by omega) hnz' hlt' hz', drop_cons_getD buf off h0]
      simp [hb]
      omega

theorem readU16_ok (buf : List Nat) (off : Nat) (h : off + 2 ≤ buf.length) :
    readU16 buf off = (.ok (leVal buf off 2), off + 2) := by
  have h1 : ¬ off > buf.length := by omega
  simp [readU16, verifyEnd, dataViewGet, h, h1]

theorem readU16_trap (buf : List Nat) (off : Nat)
    (h1 : off ≤ buf.length) (h2 : buf.length < off + 2) :
    readU16 buf off = (.error .boundsAccess, off) := by
  have h3 : ¬ off > buf.length := by omega
  have h4 : ¬ off + 2 ≤ buf.length := by omega
  simp [readU16, verifyEnd, dataViewGet, h3, h4]

theorem readU16_verify (buf : List Nat) (off : Nat) (h : buf.length < off) :
    readU16 buf off = (.error (.boundsVerify (off + 2) off), off) := by
  simp [readU16, verifyEnd, h]

theorem readU32_ok (le : Bool) (buf : List Nat) (off : Nat) (h : off + 4 ≤ buf.length) :
    readU32 le buf off =
      (.ok (if le then leVal buf off 4 else beVal ((buf.drop off).take 4)), off + 4) := by
  have h1 : ¬ off > buf.length := by omega
  simp [readU32, verifyEnd, dataViewGet, h, h1]

theorem readU32_trap (le : Bool) (buf : List Nat) (off : Nat)
    (h1 : off ≤ buf.length) (h2 : buf.length < off + 4) :
    readU32 le buf off = (.error .boundsAccess, off) := by
  have h3 : ¬ off > buf.length := by omega
  have h4 : ¬ off + 4 ≤ buf.length := by omega
  simp [readU32, verifyEnd, dataViewGet, h3, h4]

theorem readU32_verify (le : Bool) (buf : List Nat) (off : Nat) (h : buf.length < off) :
    readU32 le buf off = (.error (.boundsVerify (off + 4) off), off) := by
  simp [readU32, verifyEnd, h]

theorem readU64_ok (buf : List Nat) (off : Nat) (h : off + 8 ≤ buf.length) :
    readU64 buf off = (.ok (leVal buf off 8), off + 8) := by
  have h1 : ¬ off > buf.length := by omega
  simp [readU64, verifyEnd, dataViewGet, h, h1]

theorem readU64_trap (buf : List Nat) (off : Nat)
    (h1 : off ≤ buf.length) (h2 : buf.length < off + 8) :
    readU64 buf off = (.error .boundsAccess, off) := by
  have h3 : ¬ off > buf.length := by omega
  have h4 : ¬ off + 8 ≤ buf.length := by omega
  simp [readU64, verifyEnd, dataViewGet, h3, h4]

theorem readU64_verify (buf : List Nat) (off : Nat) (h : buf.length < off) :
    readU64 buf off = (.error (.boundsVerify (off + 8) off), off) := by
  simp [readU64, verifyEnd, h]

theorem readI64_ok (buf : List Nat) (off : Nat) (h : off + 8 ≤ buf.length) :
    readI64 buf off = (.ok (toSigned 64 (leVal buf off 8)), off + 8) := by
  have h1 : ¬ off > buf.length := by omega
  simp [readI64, verifyEnd, dataViewGet, h, h1]

theorem readI64_trap (buf : List Nat) (off : Nat)
    (h1 : off ≤ buf.length) (h2 : buf.length < off + 8) :
    readI64 buf off = (.error .boundsAccess, off) := by
  have h3 : ¬ off > buf.length := by omega
  have h4 : ¬ off + 8 ≤ buf.length := by omega
  simp [readI64, verifyEnd, dataViewGet, h3, h4]

theorem readI64_verify (buf : List Nat) (off : Nat) (h : buf.length < off) :
    readI64 buf off = (.error (.boundsVerify (off + 8) off), off) := by
  simp [readI64, verifyEnd, h]

theorem readFloat_ok (buf : List Nat) (off : Nat) (h : off + 4 ≤ buf.length) :
    readFloat buf off = (.ok (leVal buf off 4), off + 4) := by
  simp [readFloat, dataViewGet, h]

theorem readFloat_fail (buf : List Nat) (off : Nat) (h : buf.length < off + 4) :
    readFloat buf off = (.error .boundsAccess, off) := by
  have h4 : ¬ off + 4 ≤ buf.length := by omega
  simp [readFloat, dataViewGet, h4]

theorem readBoolean_ok (buf : List Nat) (off : Nat) (h : off < buf.length) :
    readBoolean buf off = (.ok (buf.getD off 0 ≠ 0), off + 1) := by
  rw [readBoolean, readU8_lt buf off h]

theorem readU256_ok (buf : List Nat) (off : Nat) (h : off + 32 ≤ buf.length) :
    readU256 buf off = (.ok (beVal ((buf.drop off).take 32)), off + 32) := by
  have h1 : ¬ off > buf.length := by omega
  rw [readU256]
  simp only [verifyEnd, h1, if_false]
  rw [readBytesBE_ok buf 32 off h]

theorem readU256_trap (buf : List Nat) (off : Nat)
    (h1 : off ≤ buf.length) (h2 : buf.length < off + 32) :
    readU256 buf off = (.error .boundsAccess, buf.length + 1) := by
  have h3 : ¬ off > buf.length := by omega
  rw [readU256]
  simp only [verifyEnd, h3, if_false]
  rw [readBytesBE_err_trap buf 32 off h1 h2]

theorem readU256_verify (buf : List Nat) (off : Nat) (h : buf.length < off) :
    readU256 buf off = (.error (.boundsVerify (off + 32) off), off) := by
  simp [readU256, verifyEnd, h]

theorem readU128_ok (buf : List Nat) (off : Nat) (h : off + 16 ≤ buf.length) :
    readU128 buf off = (.ok (beVal ((buf.drop off).take 16)), off + 16) := by
  have h1 : ¬ off > buf.length := by omega
  rw [readU128]
  simp only [verifyEnd, h1, if_false]
  rw [readBytesBE_ok buf 16 off h]

theorem readU128_trap (buf : List Nat) (off : Nat)
    (h1 : off ≤ buf.length) (h2 : buf.length < off + 16) :
    readU128 buf off = (.error .boundsAccess, buf.length + 1) := by
  have h3 : ¬ off > buf.length := by omega
  rw [readU128]
  simp only [verifyEnd, h3, if_false]
  rw [readBytesBE_err_trap buf 16 off h1 h2]

theorem readU128_verify (buf : List Nat) (off : Nat) (h : buf.length < off) :
    readU128 buf off = (.error (.boundsVerify (off + 16) off), off) := by
  simp [readU128, verifyEnd, h]

theorem readI128_ok (buf : List Nat) (off : Nat) (h : off + 16 ≤ buf.length) :
    readI128 buf off = (.ok (toSigned 128 (beVal ((buf.drop off).take 16))), off + 16) := by
  have h1 : ¬ off > buf.length := by omega
  rw [readI128]
  simp only [verifyEnd, h1, if_false]
  rw [readBytesBE_ok buf 16 off h]

theorem readI128_trap (buf : List Nat) (off : Nat)
    (h1 : off ≤ buf.length) (h2 : buf.length < off + 16) :
    readI128 buf off = (.error .boundsAccess, buf.length + 1) := by
  have h3 : ¬ off > buf.length := by omega
  rw [readI128]
  simp only [verifyEnd, h3, if_false]
  rw [readBytesBE_err_trap buf 16 off h1 h2]

theorem readI128_verify (buf : List Nat) (off : Nat) (h : buf.length < off) :
    readI128 buf off = (.error (.boundsVerify (off + 16) off), off) := by
  simp [readI128, verifyEnd, h]

theorem readI256_ok (buf : List Nat) (off : Nat) (h : off + 32 ≤ buf.length) :
    readI256 buf off = (.ok (toSigned 256 (beVal ((buf.drop off).take 32))), off + 32) := by
  have h1 : ¬ off > buf.length := by omega
  rw [readI256]
  simp only [verifyEnd, h1, if_false]
  rw [readBytesBE_ok buf 32 off h]

theorem readI256_trap (buf : List Nat) (off : Nat)
    (h1 : off ≤ buf.length) (h2 : buf.length < off + 32) :
    readI256 buf off = (.error .boundsAccess, buf.length + 1) := by
  have h3 : ¬ off > buf.length := by omega
  rw [readI256]
  simp only [verifyEnd, h3, if_false]
  rw [readBytesBE_err_trap buf 32 off h1 h2]

theorem readI256_verify (buf : List Nat) (off : Nat) (h : buf.length < off) :
    readI256 buf off = (.error (.boundsVerify (off + 32) off), off) := by
  simp [readI256, verifyEnd, h]

theorem readU8_eq_ok (buf : List Nat) (off : Nat) (b o : Nat)
    (h : readU8 buf off = (.ok b, o)) :
    off < buf.length ∧ o = off + 1 ∧ b = buf.getD off 0 := by
  rcases Nat.lt_trichotomy off buf.length with hlt | heq | hgt
  · rw [readU8_lt buf off hlt] at h
    refine ⟨hlt, ?_, ?_⟩ <;> simp_all
  · rw [readU8_at_end buf off heq] at h
    simp at h
  · rw [readU8_past buf off hgt] at h
    simp at h

theorem readU16_eq_ok (buf : List Nat) (off : Nat) (b o : Nat)
    (h : readU16 buf off = (.ok b, o)) :
    off + 2 ≤ buf.length ∧ o = off + 2 := by
  rcases Nat.lt_or_ge buf.length off with hgt | hle
  · rw [readU16_verify buf off hgt] at h
    simp at h
  · by_cases h2 : off + 2 ≤ buf.length
    · rw [readU16_ok buf off h2] at h
      simp_all
    · rw [readU16_trap buf off hle (by omega)] at h
      simp at h

theorem readU32_eq_ok (le : Bool) (buf : List Nat) (off : Nat) (b o : Nat)
    (h : readU32 le buf off = (.ok b, o)) :
    off + 4 ≤ buf.length ∧ o = off + 4 := by
  rcases Nat.lt_or_ge buf.length off with hgt | hle
  · rw [readU32_verify le buf off hgt] at h
    simp at h
  · by_cases h2 : off + 4 ≤ buf.length
    · rw [readU32_ok le buf off h2] at h
      simp_all
    · rw [readU32_trap le buf off hle (by omega)] at h
      simp at h

theorem readU64_eq_ok (buf : List Nat) (off : Nat) (b o : Nat)
    (h : readU64 buf off = (.ok b, o)) :
    off + 8 ≤ buf.length ∧ o = off + 8 := by
  rcases Nat.lt_or_ge buf.length off with hgt | hle
  · rw [readU64_verify buf off hgt] at h
    simp at h
  · by_cases h2 : off + 8 ≤ buf.length
    · rw [readU64_ok buf off h2] at h
      simp_all
    · rw [readU64_trap buf off hle (by omega)] at h
      simp at h

theorem readI64_eq_ok (buf : List Nat) (off : Nat) (b : Int) (o : Nat)
    (h : readI64 buf off = (.ok b, o)) :
    off + 8 ≤ buf.length ∧ o = off + 8 := by
  rcases Nat.lt_or_ge buf.length off with hgt | hle
  · rw [readI64_verify buf off hgt] at h
    simp at h
  · by_cases h2 : off + 8 ≤ buf.length
    · rw [readI64_ok buf off h2] at h
      simp_all
    · rw [readI64_trap buf off hle (by omega)] at h
      simp at h

theorem readFloat_eq_ok (buf : List Nat) (off : Nat) (b o : Nat)
    (h : readFloat buf off = (.ok b, o)) :
    off + 4 ≤ buf.length ∧ o = off + 4 := by
  by_cases h2 : off + 4 ≤ buf.length
  · rw [readFloat_ok buf off h2] at h
    simp_all
  · rw [readFloat_fail buf off (by omega)] at h
    simp at h

theorem readBytesBE_eq_ok (buf : List Nat) (n off : Nat) (bs : List Nat) (o : Nat)
    (hoff : off ≤ buf.length) (h : readBytesBE buf off n = (.ok bs, o)) :
    off + n ≤ buf.length ∧ o = off + n ∧ bs = (buf.drop off).take n := by
  by_cases h2 : off + n ≤ buf.length
  · rw [readBytesBE_ok buf n off h2] at h
    simp_all
  · rw [readBytesBE_err_trap buf n off hoff (by omega)] at h
    simp at h

theorem readU256_eq_ok (buf : List Nat) (off : Nat) (b o : Nat)
    (h : readU256 buf off = (.ok b, o)) :
    off + 32 ≤ buf.length ∧ o = off + 32 := by
  rcases Nat.lt_or_ge buf.length off with hgt | hle
  · rw [readU256_verify buf off hgt] at h
    simp at h
  · by_cases h2 : off + 32 ≤ buf.length
    · rw [readU256_ok buf off h2] at h
      simp_all
    · rw [readU256_trap buf off hle (by omega)] at h
      simp at h

theorem readU128_eq_ok (buf : List Nat) (off : Nat) (b o : Nat)
    (h : readU128 buf off = (.ok b, o)) :
    off + 16 ≤ buf.length ∧ o = off + 16 := by
  rcases Nat.lt_or_ge buf.length off with hgt | hle
  · rw [readU128_verify buf off hgt] at h
    simp at h
  · by_cases h2 : off + 16 ≤ buf.length
    · rw [readU128_ok buf off h2] at h
      simp_all
    · rw [readU128_trap buf off hle (by omega)] at h
      simp at h

theorem readI128_eq_ok (buf : List Nat) (off : Nat) (b : Int) (o : Nat)
    (h : readI128 buf off = (.ok b, o)) :
    off + 16 ≤ buf.length ∧ o = off + 16 := by
  rcases Nat.lt_or_ge buf.length off with hgt | hle
  · rw [readI128_verify buf off hgt] at h
    simp at h
  · by_cases h2 : off + 16 ≤ buf.length
    · rw [readI128_ok buf off h2] at h
      simp_all
    · rw [readI128_trap buf off hle (by omega)] at h
      simp at h

theorem readI256_eq_ok (buf : List Nat) (off : Nat) (b : Int) (o : Nat)
    (h : readI256 buf off = (.ok b, o)) :
    off + 32 ≤ buf.length ∧ o = off + 32 := by
  rcases Nat.lt_or_ge buf.length off with hgt | hle
  · rw [readI256_verify buf off hgt] at h
    simp at h
  · by_cases h2 : off + 32 ≤ buf.length
    · rw [readI256_ok buf off h2] at h
      simp_all
    · rw [readI256_trap buf off hle (by omega)] at h
      simp at h

theorem readBytesAux_ok_le (buf : List Nat) (zs : Bool) :
    ∀ (n off : Nat) (bs : List Nat) (o : Nat), off ≤ buf.length →
    readBytesAux buf zs off n = (.ok bs, o) → o ≤ buf.length := by
  intro n
  induction n with
  | zero =>
    intro off bs o hoff h
    rw [readBytesAux] at h
    simp at h
    omega
  | succ m ih =>
    intro off bs o hoff h
    rw [readBytesAux] at h
    rcases hu : readU8 buf off with ⟨r1, o1⟩
    rw [hu] at h
    cases r1 with
    | error e => simp at h
    | ok b =>
      obtain ⟨hlt, ho1, hb⟩ := readU8_eq_ok buf off b o1 hu
      simp only [Prod.mk.injEq] at h
      split at h
      · simp at h
        omega
      · rcases hr : readBytesAux buf zs o1 m with ⟨r2, o2⟩
        rw [hr] at h
        cases r2 with
        | error e => simp at h
        | ok bs2 =>
          simp at h
          have := ih o1 bs2 o2 (by omega) hr
          omega

theorem readBytesWithLength_ok_le (buf : List Nat) (off : Nat) (bs : List Nat) (o : Nat)
    (h : readBytesWithLength buf off = (.ok bs, o)) : o ≤ buf.length := by
  rw [readBytesWithLength] at h
  rcases hu : readU32 true buf off with ⟨r1, o1⟩
  rw [hu] at h
  cases r1 with
  | error e => simp at h
  | ok L =>
    obtain ⟨h4, ho1⟩ := readU32_eq_ok true buf off L o1 hu
    exact readBytesAux_ok_le buf false L o1 bs o (by omega) h

theorem readStringWithLength_ok_le (buf : List Nat) (off : Nat) (bs : List Nat) (o : Nat)
    (h : readStringWithLength buf off = (.ok bs, o)) : o ≤ buf.length := by
  rw [readStringWithLength] at h
  rcases hu : readU16 buf off with ⟨r1, o1⟩
  rw [hu] at h
  cases r1 with
  | error e => simp at h
  | ok L =>
    obtain ⟨h2, ho1⟩ := readU16_eq_ok buf off L o1 hu
    exact readBytesAux_ok_le buf true L o1 bs o (by omega) h

theorem readAVTLoop_ok_le (buf : List Nat) :
    ∀ (n off : Nat) (acc m : List (Address × Nat)) (o : Nat), off ≤ buf.length →
    readAVTLoop buf off n acc = (.ok m, o) → o ≤ buf.length := by
  intro n
  induction n with
  | zero =>
    intro off acc m o hoff h
    rw [readAVTLoop] at h
    simp at h
    omega
  | succ k ih =>
    intro off acc m o hoff h
    rw [readAVTLoop] at h
    rcases ha : readAddress buf off with ⟨r1, o1⟩
    rw [ha] at h
    cases r1 with
    | error e => simp at h
    | ok addr =>
      obtain ⟨hle1, ho1, _⟩ := readBytesBE_eq_ok buf ADDRESS_BYTE_LENGTH off addr o1 hoff ha
      dsimp only at h
      rcases hv : readU256 buf o1 with ⟨r2, o2⟩
      rw [hv] at h
      cases r2 with
      | error e => simp at h
      | ok value =>
        obtain ⟨hle2, ho2⟩ := readU256_eq_ok buf o1 value o2 hv
        dsimp only at h
        split at h
        · simp at h
        · exact ih o2 (addressMapSet acc addr value) m o (by omega) h

theorem readCallsLoop_ok_le (buf : List Nat) :
    ∀ (n off : Nat) (calls : List (List Nat)) (o : Nat), off ≤ buf.length →
    readCallsLoop buf off n = (.ok calls, o) → o ≤ buf.length := by
  intro n
  induction n with
  | zero =>
    intro off calls o hoff h
    rw [readCallsLoop] at h
    simp at h
    omega
  | succ k ih =>
    intro off calls o hoff h
    rw [readCallsLoop] at h
    rcases hb : readBytesWithLength buf off with ⟨r1, o1⟩
    rw [hb] at h
    cases r1 with
    | error e => simp at h
    | ok response =>
      have ho1 : o1 ≤ buf.length := readBytesWithLength_ok_le buf off response o1 hb
      dsimp only at h
      rcases hr : readCallsLoop buf o1 k with ⟨r2, o2⟩
      rw [hr] at h
      cases r2 with
      | error e => simp at h
      | ok calls2 =>
        simp at h
        have := ih o1 calls2 o2 ho1 hr
        omega

theorem readMBAMLoop_ok_le (buf : List Nat) :
    ∀ (n off : Nat) (acc m : List (Address × List (List Nat))) (o : Nat), off ≤ buf.length →
    readMBAMLoop buf off n acc = (.ok m, o) → o ≤ buf.length := by
  intro n
  induction n with
  | zero =>
    intro off acc m o hoff h
    rw [readMBAMLoop] at h
    simp at h
    omega
  | succ k ih =>
    intro off acc m o hoff h
    rw [readMBAMLoop] at h
    rcases ha : readAddress buf off with ⟨r1, o1⟩
    rw [ha] at h
    cases r1 with
    | error e => simp at h
    | ok addr =>
      obtain ⟨hle1, ho1, _⟩ := readBytesBE_eq_ok buf ADDRESS_BYTE_LENGTH off addr o1 hoff ha
      dsimp only at h
      rcases hs : readU8 buf o1 with ⟨r2, o2⟩
      rw [hs] at h
      cases r2 with
      | error e => simp at h
      | ok responseSize =>
        obtain ⟨hlt2, ho2, _⟩ := readU8_eq_ok buf o1 responseSize o2 hs
        dsimp only at h
        split at h
        · simp at h
        · rcases hc : readCallsLoop buf o2 responseSize with ⟨r3, o3⟩
          rw [hc] at h
          cases r3 with
          | error e => simp at h
          | ok calls =>
            have ho3 : o3 ≤ buf.length := readCallsLoop_ok_le buf responseSize o2 calls o3 (by omega) hc
            exact ih o3 (addressMapSet acc addr calls) m o ho3 h

theorem readAddressValueTuple_ok_le (buf : List Nat) (off : Nat)
    (m : List (Address × Nat)) (o : Nat)
    (h : readAddressValueTuple buf off = (.ok m, o)) : o ≤ buf.length := by
  rw [readAddressValueTuple] at h
  rcases hu : readU16 buf off with ⟨r1, o1⟩
  rw [hu] at h
  cases r1 with
  | error e => simp at h
  | ok L =>
    obtain ⟨h2, ho1⟩ := readU16_eq_ok buf off L o1 hu
    exact readAVTLoop_ok_le buf L o1 [] m o (by omega) h

theorem readMultiBytesAddressMap_ok_le (buf : List Nat) (off : Nat)
    (m : List (Address × List (List Nat))) (o : Nat)
    (h : readMultiBytesAddressMap buf off = (.ok m, o)) : o ≤ buf.length := by
  rw [readMultiBytesAddressMap] at h
  rcases hu : readU8 buf off with ⟨r1, o1⟩
  rw [hu] at h
  cases r1 with
  | error e => simp at h
  | ok size =>
    obtain ⟨hlt, ho1, _⟩ := readU8_eq_ok buf off size o1 hu
    dsimp only at h
    split at h
    · simp at h
    · exact readMBAMLoop_ok_le buf size o1 [] m o (by omega) h

theorem getD_append_add (pre l : List Nat) : ∀ (i : Nat),
    (pre ++ l).getD (pre.length + i) 0 = l.getD i 0 := by
  induction pre with
  | nil => intro i; simp
  | cons a p ih =>
    intro i
    have hidx : (a :: p).length + i = (p.length + i) + 1 := by simp; omega
    rw [hidx, List.cons_append]
    simpa using ih i

theorem leVal_chunk : ∀ (w : Nat) (pre chunk rest : List Nat), chunk.length = w →
    leVal ((pre ++ chunk) ++ rest) pre.length w = leVal chunk 0 w := by
  intro w
  induction w with
  | zero => intro pre chunk rest h; rfl
  | succ v ih =>
    intro pre chunk rest h
    cases chunk with
    | nil => simp at h
    | cons c cs =>
      have hcs : cs.length = v := by simpa using h
      rw [leVal, leVal]
      have e1 : ((pre ++ c :: cs) ++ rest).getD pre.length 0 = c := by
        have := getD_append_add pre (c :: cs ++ rest) 0
        simpa using this
      have e2 : leVal ((pre ++ c :: cs) ++ rest) (pre.length + 1) v = leVal cs 0 v := by
        have hlist : (pre ++ c :: cs) ++ rest = ((pre ++ [c]) ++ cs) ++ rest := by simp
        have hlen : pre.length + 1 = (pre ++ [c]).length := by simp
        rw [hlist, hlen]
        exact ih (pre ++ [c]) cs rest hcs
      have e3 : (c :: cs).getD 0 0 = c := by simp
      have e4 : leVal (c :: cs) 1 v = leVal cs 0 v := by
        have := ih [c] cs [] hcs
        simpa using this
      rw [e1, e2, e3, e4]

theorem readU16_u16LE (pre rest : List Nat) (n : Nat) (h : n < 65536) :
    readU16 ((pre ++ u16LE n) ++ rest) pre.length = (.ok n, pre.length + 2) := by
  have hlen : pre.length + 2 ≤ ((pre ++ u16LE n) ++ rest).length := by
    simp [u16LE]
  rw [readU16_ok _ _ hlen, leVal_chunk 2 pre (u16LE n) rest (by simp [u16LE])]
  have : leVal (u16LE n) 0 2 = n := by
    simp [u16LE, leVal]
    omega
  rw [this]

theorem readU32_u32LE (pre rest : List Nat) (n : Nat) (h : n < 4294967296) :
    readU32 true ((pre ++ u32LE n) ++ rest) pre.length = (.ok n, pre.length + 4) := by
  have hlen : pre.length + 4 ≤ ((pre ++ u32LE n) ++ rest).length := by
    simp [u32LE]
  rw [readU32_ok true _ _ hlen]
  have hc : leVal ((pre ++ u32LE n) ++ rest) pre.length 4 = leVal (u32LE n) 0 4 :=
    leVal_chunk 4 pre (u32LE n) rest (by simp [u32LE])
  have hv : leVal (u32LE n) 0 4 = n := by
    simp [u32LE, leVal]
    omega
  have hif : (if true then leVal ((pre ++ u32LE n) ++ rest) pre.length 4
      else beVal ((((pre ++ u32LE n) ++ rest).drop pre.length).take 4)) =
      leVal ((pre ++ u32LE n) ++ rest) pre.length 4 := by simp
  rw [hif, hc, hv]

theorem readBytesBE_chunk (pre chunk rest : List Nat) :
    readBytesBE ((pre ++ chunk) ++ rest) pre.length chunk.length =
      (.ok chunk, pre.length + chunk.length) := by
  have hlen : pre.length + chunk.length ≤ ((pre ++ chunk) ++ rest).length := by
    simp
  rw [readBytesBE_ok _ _ _ hlen]
  have hdt : ((((pre ++ chunk) ++ rest).drop pre.length).take chunk.length) = chunk := by
    rw [List.append_assoc, List.drop_left, List.take_left]
  rw [hdt]

theorem readAddress_chunk (pre chunk rest : List Nat) (h : chunk.length = ADDRESS_BYTE_LENGTH) :
    readAddress ((pre ++ chunk) ++ rest) pre.length =
      (.ok chunk, pre.length + ADDRESS_BYTE_LENGTH) := by
  rw [readAddress, ← h]
  exact readBytesBE_chunk pre chunk rest

theorem readU256_chunk (pre chunk rest : List Nat) (h : chunk.length = 32) :
    readU256 ((pre ++ chunk) ++ rest) pre.length = (.ok (beVal chunk), pre.length + 32) := by
  have hlen : pre.length + 32 ≤ ((pre ++ chunk) ++ rest).length := by
    simp
    omega
  rw [readU256_ok _ _ hlen]

  have hdt : ((((pre ++ chunk) ++ rest).drop pre.length).take 32) = chunk := by
    rw [List.append_assoc, List.drop_left, ← h, List.take_left]
  rw [hdt]

theorem readBytes_false_chunk (pre chunk rest : List Nat) :
    readBytes ((pre ++ chunk) ++ rest) pre.length chunk.length false =
      (.ok chunk, pre.length + chunk.length) := by
  rw [readBytes, readBytesAux_false]
  exact readBytesBE_chunk pre chunk rest

theorem readBytesWithLength_blob (pre b rest : List Nat) (h : b.length < 4294967296) :
    readBytesWithLength ((pre ++ encodeBlob b) ++ rest) pre.length =
      (.ok b, pre.length + 4 + b.length) := by
  rw [readBytesWithLength]
  have hsplit : (pre ++ encodeBlob b) ++ rest = ((pre ++ u32LE b.length) ++ b) ++ rest := by
    simp [encodeBlob]
  rw [hsplit]
  have hu32 : readU32 true (((pre ++ u32LE b.length) ++ b) ++ rest) pre.length =
      (.ok b.length, pre.length + 4) := by
    have hassoc : ((pre ++ u32LE b.length) ++ b) ++ rest =
        (pre ++ u32LE b.length) ++ (b ++ rest) := by simp
    rw [hassoc]
    exact readU32_u32LE pre (b ++ rest) b.length h
  rw [hu32]
  have hlen4 : pre.length + 4 = (pre ++ u32LE b.length).length := by simp [u32LE]
  rw [hlen4]
  dsimp only
  rw [readBytes_false_chunk (pre ++ u32LE b.length) b rest]

theorem addressMapHas_set_self {α : Type} (m : List (Address × α)) (k : Address) (v : α) :
    addressMapHas (addressMapSet m k v) k = true := by
  induction m with
  | nil => simp [addressMapSet, addressMapHas]
  | cons p rest ih =>
    by_cases hp : p.1 = k
    · simp [addressMapSet, hp, addressMapHas]
    · simp [addressMapSet, hp, addressMapHas, ih]

theorem addressMapHas_set_mono {α : Type} (m : List (Address × α)) (k a : Address) (v : α)
    (h : addressMapHas m a = true) : addressMapHas (addressMapSet m k v) a = true := by
  induction m with
  | nil => simp [addressMapHas] at h
  | cons p rest ih =>
    rw [addressMapHas] at h
    simp at h
    by_cases hp : p.1 = k
    · rcases h with h | h
      · have : k = a := hp ▸ h
        simp [addressMapSet, hp, addressMapHas, this]
      · simp [addressMapSet, hp, addressMapHas, h]
    · rcases h with h | h
      · have hak : ¬ a = k := fun hh => hp (by rw [h, hh])
        simp [addressMapSet, hp, addressMapHas, h, hak]
      · simp [addressMapSet, hp, addressMapHas, ih h]

theorem addressMapSet_fresh {α : Type} (m : List (Address × α)) (k : Address) (v : α)
    (h : addressMapHas m k = false) : addressMapSet m k v = m ++ [(k, v)] := by
  induction m with
  | nil => rfl
  | cons p rest ih =>
    rw [addressMapHas] at h
    simp at h
    obtain ⟨h1, h2⟩ := h
    simp [addressMapSet, h1]
    exact ih h2

theorem addressMapGet_set_self {α : Type} (m : List (Address × α)) (k : Address) (v : α) :
    addressMapGet (addressMapSet m k v) k = some v := by
  induction m with
  | nil => simp [addressMapSet, addressMapGet]
  | cons p rest ih =>
    by_cases hp : p.1 = k
    · simp [addressMapSet, hp, addressMapGet]
    · simp [addressMapSet, hp, addressMapGet, ih]

theorem addressMapGet_set_other {α : Type} (m : List (Address × α)) (k a : Address) (v : α)
    (h : a ≠ k) : addressMapGet (addressMapSet m k v) a = addressMapGet m a := by
  have hka : ¬ k = a := fun hh => h hh.symm
  induction m with
  | nil => simp [addressMapSet, addressMapGet, hka]
  | cons p rest ih =>
    by_cases hp : p.1 = k
    · have hpa : ¬ p.1 = a := by rw [hp]; exact hka
      simp [addressMapSet, hp, addressMapGet, hka, hpa]
    · by_cases hpa : p.1 = a
      · simp [addressMapSet, hp, addressMapGet, hpa, h]
      · simp [addressMapSet, hp, addressMapGet, hpa, h, ih]

theorem insertPairs_ok_of_nodup :
    ∀ (dps acc : List (Address × Nat)), (dps.map Prod.fst).Nodup →
    (∀ d ∈ dps, addressMapHas acc d.1 = false) →
    insertPairs acc dps = .ok (acc ++ dps) := by
  intro dps
  induction dps with
  | nil => intro acc h1 h2; simp [insertPairs]
  | cons d rest ih =>
    intro acc h1 h2
    have hd : addressMapHas acc d.1 = false := h2 d (by simp)
    rw [insertPairs, hd]
    simp only [Bool.false_eq_true, if_false]
    rw [addressMapSet_fresh acc d.1 d.2 hd]
    rw [List.map_cons] at h1
    obtain ⟨hnotin, h1'⟩ := List.nodup_cons.mp h1
    have h2' : ∀ e ∈ rest, addressMapHas (acc ++ [(d.1, d.2)]) e.1 = false := by
      intro e he
      have hne : e.1 ≠ d.1 := by
        intro hh
        exact hnotin (hh ▸ List.mem_map.mpr ⟨e, he, rfl⟩)
      have hacc : addressMapHas acc e.1 = false := h2 e (by simp [he])
      have happ : ∀ (m1 m2 : List (Address × Nat)) (x : Address),
          addressMapHas (m1 ++ m2) x = (addressMapHas m1 x || addressMapHas m2 x) := by
        intro m1
        induction m1 with
        | nil => intro m2 x; simp [addressMapHas]
        | cons q qs ihq =>
          intro m2 x
          simp [addressMapHas, ihq, Bool.or_assoc]
      have hne' : ¬ d.1 = e.1 := fun hh => hne hh.symm
      rw [happ]
      simp [hacc, addressMapHas, hne']
    rw [ih (acc ++ [(d.1, d.2)]) h1' h2']
    simp

theorem insertPairs_err_of_mem :
    ∀ (dps acc : List (Address × Nat)) (a : Address), addressMapHas acc a = true →
    a ∈ dps.map Prod.fst →
    insertPairs acc dps = .error (.validation "Duplicate address found in map") := by
  intro dps
  induction dps with
  | nil => intro acc a h1 h2; simp at h2
  | cons d rest ih =>
    intro acc a h1 h2
    rw [insertPairs]
    by_cases hd : addressMapHas acc d.1
    · simp [hd]
    · simp only [hd, Bool.false_eq_true, if_false]
      have hne : a ≠ d.1 := by
        intro hh
        rw [hh] at h1
        simp [h1] at hd
      have hmem : a ∈ rest.map Prod.fst := by
        simp at h2
        rcases h2 with h2 | h2
        · exact absurd h2 hne
        · simpa using h2
      exact ih (addressMapSet acc d.1 d.2) a
        (addressMapHas_set_mono acc d.1 a d.2 h1) hmem

theorem insertPairs_err_of_dup :
    ∀ (dps acc : List (Address × Nat)), ¬ (dps.map Prod.fst).Nodup →
    insertPairs acc dps = .error (.validation "Duplicate address found in map") := by
  intro dps
  induction dps with
  | nil => intro acc h; simp at h
  | cons d rest ih =>
    intro acc h
    rw [insertPairs]
    by_cases hd : addressMapHas acc d.1
    · simp [hd]
    · simp only [hd, Bool.false_eq_true, if_false]
      by_cases hin : d.1 ∈ rest.map Prod.fst
      · exact insertPairs_err_of_mem rest (addressMapSet acc d.1 d.2) d.1
          (addressMapHas_set_self acc d.1 d.2) hin
      · have : ¬ (rest.map Prod.fst).Nodup := by
          intro hnd
          exact h (by simpa using List.Nodup.cons hin hnd)
        exact ih (addressMapSet acc d.1 d.2) this

theorem readAVTLoop_spec :
    ∀ (ps : List (List Nat × List Nat)) (pre rest : List Nat) (acc : List (Address × Nat)),
    (∀ p ∈ ps, p.1.length = ADDRESS_BYTE_LENGTH ∧ p.2.length = 32) →
    (readAVTLoop ((pre ++ (ps.map encodeAVTPair).flatten) ++ rest) pre.length ps.length acc).1
      = insertPairs acc (ps.map (fun p => (p.1, beVal p.2))) := by
  intro ps
  induction ps with
  | nil => intro pre rest acc hps; simp [readAVTLoop, insertPairs]
  | cons p ps' ih =>
    intro pre rest acc hps
    obtain ⟨hp1, hp2⟩ := hps p (by simp)
    have hps' : ∀ q ∈ ps', q.1.length = ADDRESS_BYTE_LENGTH ∧ q.2.length = 32 :=
      fun q hq => hps q (by simp [hq])
    simp only [List.map_cons, List.flatten_cons, List.length_cons]
    rw [readAVTLoop]
    have hbuf1 : (pre ++ (encodeAVTPair p ++ (ps'.map encodeAVTPair).flatten)) ++ rest
        = (pre ++ p.1) ++ (p.2 ++ ((ps'.map encodeAVTPair).flatten ++ rest)) := by
      simp [encodeAVTPair]
    rw [hbuf1, readAddress_chunk pre p.1 (p.2 ++ ((ps'.map encodeAVTPair).flatten ++ rest)) hp1]
    dsimp only
    have hoff1 : pre.length + ADDRESS_BYTE_LENGTH = (pre ++ p.1).length := by simp [hp1]
    rw [hoff1]
    have hbuf2 : (pre ++ p.1) ++ (p.2 ++ ((ps'.map encodeAVTPair).flatten ++ rest))
        = ((pre ++ p.1) ++ p.2) ++ ((ps'.map encodeAVTPair).flatten ++ rest) := by
      simp
    rw [hbuf2, readU256_chunk (pre ++ p.1) p.2 ((ps'.map encodeAVTPair).flatten ++ rest) hp2]
    dsimp only
    by_cases hdup : addressMapHas acc p.1
    · simp [hdup, insertPairs]
    · simp only [hdup, Bool.false_eq_true, if_false]
      have hoff2 : (pre ++ p.1).length + 32 = ((pre ++ p.1) ++ p.2).length := by
        simp [hp2]
        omega
      rw [hoff2]
      have hbuf3 : ((pre ++ p.1) ++ p.2) ++ ((ps'.map encodeAVTPair).flatten ++ rest)
          = (((pre ++ p.1) ++ p.2) ++ (ps'.map encodeAVTPair).flatten) ++ rest := by
        simp
      rw [hbuf3]
      rw [ih ((pre ++ p.1) ++ p.2) rest (addressMapSet acc p.1 (beVal p.2)) hps']
      rw [insertPairs]
      simp [hdup]

theorem readAddressValueTuple_encode (ps : List (List Nat × List Nat))
    (h1 : ps.length < 65536)
    (hps : ∀ p ∈ ps, p.1.length = ADDRESS_BYTE_LENGTH ∧ p.2.length = 32) :
    (readAddressValueTuple (encodeAVT ps) 0).1
      = insertPairs [] (ps.map (fun p => (p.1, beVal p.2))) := by
  rw [readAddressValueTuple]
  have h16 := readU16_u16LE [] ((ps.map encodeAVTPair).flatten) ps.length h1
  rw [show (([] : List Nat) ++ u16LE ps.length) ++ (ps.map encodeAVTPair).flatten
      = u16LE ps.length ++ (ps.map encodeAVTPair).flatten from by simp] at h16
  rw [show ([] : List Nat).length = 0 from rfl] at h16
  rw [show encodeAVT ps = u16LE ps.length ++ (ps.map encodeAVTPair).flatten from rfl]
  rw [h16]
  dsimp only
  have hsp := readAVTLoop_spec ps (u16LE ps.length) [] [] hps
  rw [List.append_nil] at hsp
  rw [show (u16LE ps.length).length = 2 from rfl] at hsp
  rw [show (0 : Nat) + 2 = 2 from rfl]
  exact hsp

theorem readU8_chunk (pre tail : List Nat) (b : Nat) :
    readU8 (pre ++ b :: tail) pre.length = (.ok b, pre.length + 1) := by
  have hlt : pre.length < (pre ++ b :: tail).length := by simp
  rw [readU8_lt _ _ hlt]
  have hb : (pre ++ b :: tail).getD pre.length 0 = b := by
    have := getD_append_add pre (b :: tail) 0
    simpa using this
  rw [hb]

theorem readCallsLoop_spec :
    ∀ (bs : List (List Nat)) (pre rest : List Nat),
    (∀ b ∈ bs, b.length < 4294967296) →
    readCallsLoop ((pre ++ (bs.map encodeBlob).flatten) ++ rest) pre.length bs.length
      = (.ok bs, (pre ++ (bs.map encodeBlob).flatten).length) := by
  intro bs
  induction bs with
  | nil => intro pre rest hbs; simp [readCallsLoop]
  | cons b bs' ih =>
    intro pre rest hbs
    have hb : b.length < 4294967296 := hbs b (by simp)
    have hbs' : ∀ q ∈ bs', q.length < 4294967296 := fun q hq => hbs q (by simp [hq])
    simp only [List.map_cons, List.flatten_cons, List.length_cons]
    rw [readCallsLoop]
    have hbuf1 : (pre ++ (encodeBlob b ++ (bs'.map encodeBlob).flatten)) ++ rest
        = (pre ++ encodeBlob b) ++ ((bs'.map encodeBlob).flatten ++ rest) := by
      simp
    rw [hbuf1, readBytesWithLength_blob pre b ((bs'.map encodeBlob).flatten ++ rest) hb]
    dsimp only
    have hoff : pre.length + 4 + b.length = (pre ++ encodeBlob b).length := by
      simp [encodeBlob, u32LE]
      omega
    rw [hoff]
    have hbuf2 : (pre ++ encodeBlob b) ++ ((bs'.map encodeBlob).flatten ++ rest)
        = ((pre ++ encodeBlob b) ++ (bs'.map encodeBlob).flatten) ++ rest := by
      simp
    rw [hbuf2, ih (pre ++ encodeBlob b) rest hbs']
    simp

theorem readMBAMLoop_spec :
    ∀ (es : List (List Nat × List (List Nat))) (pre rest : List Nat)
      (acc : List (Address × List (List Nat))),
    (∀ e ∈ es, e.1.length = ADDRESS_BYTE_LENGTH ∧ e.2.length ≤ 10 ∧
      ∀ b ∈ e.2, b.length < 4294967296) →
    readMBAMLoop ((pre ++ (es.map encodeMBAMEntry).flatten) ++ rest) pre.length es.length acc
      = (.ok (es.foldl (fun m e => addressMapSet m e.1 e.2) acc),
         (pre ++ (es.map encodeMBAMEntry).flatten).length) := by
  intro es
  induction es with
  | nil => intro pre rest acc hes; simp [readMBAMLoop]
  | cons e es' ih =>
    intro pre rest acc hes
    obtain ⟨he1, he2, he3⟩ := hes e (by simp)
    have hes' : ∀ q ∈ es', q.1.length = ADDRESS_BYTE_LENGTH ∧ q.2.length ≤ 10 ∧
        ∀ b ∈ q.2, b.length < 4294967296 := fun q hq => hes q (by simp [hq])
    simp only [List.map_cons, List.flatten_cons, List.length_cons]
    rw [readMBAMLoop]
    have hbuf1 : (pre ++ (encodeMBAMEntry e ++ (es'.map encodeMBAMEntry).flatten)) ++ rest
        = (pre ++ e.1) ++ (e.2.length :: ((e.2.map encodeBlob).flatten
            ++ ((es'.map encodeMBAMEntry).flatten ++ rest))) := by
      simp [encodeMBAMEntry]
    rw [hbuf1]
    have haddr : readAddress ((pre ++ e.1) ++ (e.2.length :: ((e.2.map encodeBlob).flatten
        ++ ((es'.map encodeMBAMEntry).flatten ++ rest)))) pre.length
        = (.ok e.1, pre.length + ADDRESS_BYTE_LENGTH) :=
      readAddress_chunk pre e.1 _ he1
    rw [haddr]
    dsimp only
    have hoff1 : pre.length + ADDRESS_BYTE_LENGTH = (pre ++ e.1).length := by simp [he1]
    rw [hoff1]
    rw [readU8_chunk (pre ++ e.1) _ e.2.length]
    dsimp only
    have hcap : ¬ (e.2.length > 10) := by omega
    simp only [hcap, if_false]
    have hoff2 : (pre ++ e.1).length + 1 = ((pre ++ e.1) ++ [e.2.length]).length := by
      simp
      omega
    rw [hoff2]
    have hbuf3 : (pre ++ e.1) ++ e.2.length :: ((e.2.map encodeBlob).flatten
        ++ ((es'.map encodeMBAMEntry).flatten ++ rest))
        = (((pre ++ e.1) ++ [e.2.length]) ++ (e.2.map encodeBlob).flatten)
            ++ ((es'.map encodeMBAMEntry).flatten ++ rest) := by
      simp
    rw [hbuf3, readCallsLoop_spec e.2 ((pre ++ e.1) ++ [e.2.length])
        ((es'.map encodeMBAMEntry).flatten ++ rest) he3]
    dsimp only
    have hbuf4 : (((pre ++ e.1) ++ [e.2.length]) ++ (e.2.map encodeBlob).flatten)
        ++ ((es'.map encodeMBAMEntry).flatten ++ rest)
        = ((((pre ++ e.1) ++ [e.2.length]) ++ (e.2.map encodeBlob).flatten)
            ++ (es'.map encodeMBAMEntry).flatten) ++ rest := by
      simp
    rw [hbuf4, ih (((pre ++ e.1) ++ [e.2.length]) ++ (e.2.map encodeBlob).flatten) rest
        (addressMapSet acc e.1 e.2) hes']
    simp [encodeMBAMEntry]

theorem readMultiBytesAddressMap_encode (entries : List (List Nat × List (List Nat)))
    (hsize : entries.length ≤ 8)
    (hes : ∀ e ∈ entries, e.1.length = ADDRESS_BYTE_LENGTH ∧ e.2.length ≤ 10 ∧
      ∀ b ∈ e.2, b.length < 4294967296) :
    readMultiBytesAddressMap (encodeMBAM entries) 0
      = (.ok (mbamFold entries), (encodeMBAM entries).length) := by
  rw [readMultiBytesAddressMap]
  have h8 := readU8_chunk [] ((entries.map encodeMBAMEntry).flatten) entries.length
  rw [show ([] : List Nat) ++ entries.length :: (entries.map encodeMBAMEntry).flatten
      = entries.length :: (entries.map encodeMBAMEntry).flatten from by simp] at h8
  rw [show ([] : List Nat).length = 0 from rfl] at h8
  rw [show encodeMBAM entries
      = entries.length :: (entries.map encodeMBAMEntry).flatten from rfl]
  rw [h8]
  dsimp only
  have hcap : ¬ (entries.length > 8) := by omega
  simp only [hcap, if_false]
  have hsp := readMBAMLoop_spec entries [entries.length] [] [] hes
  rw [List.append_nil] at hsp
  rw [show ([entries.length] : List Nat).length = 1 from rfl] at hsp
  rw [show ([entries.length] : List Nat) ++ (entries.map encodeMBAMEntry).flatten
      = entries.length :: (entries.map encodeMBAMEntry).flatten from by simp] at hsp
  rw [show (0 : Nat) + 1 = 1 from rfl]
  rw [hsp, mbamFold]

theorem find?_append_match {α : Type} (p : α → Bool) :
    ∀ (l1 l2 : List α), (l1 ++ l2).find? p
      = match l1.find? p with
        | some x => some x
        | none => l2.find? p := by
  intro l1
  induction l1 with
  | nil => intro l2; simp
  | cons a t ih =>
    intro l2
    by_cases hp : p a
    · simp [List.find?, hp]
    · simp only [List.cons_append, List.find?, hp]
      exact ih l2

theorem addressMapGet_foldl :
    ∀ (es : List (Address × List (List Nat))) (acc : List (Address × List (List Nat)))
      (a : Address),
    addressMapGet (es.foldl (fun m e => addressMapSet m e.1 e.2) acc) a
      = match es.reverse.find? (fun e => e.1 = a) with
        | some e => some e.2
        | none => addressMapGet acc a := by
  intro es
  induction es with
  | nil => intro acc a; simp
  | cons e es' ih =>
    intro acc a
    rw [List.foldl_cons, ih (addressMapSet acc e.1 e.2) a]
    rw [List.reverse_cons, find?_append_match]
    rcases hf : es'.reverse.find? (fun e => e.1 = a) with _ | d
    · rw [hf]
      dsimp only
      by_cases hea : e.1 = a
      · simp [List.find?, hea]
        rw [← hea, addressMapGet_set_self]
      · simp [List.find?, hea]
        exact addressMapGet_set_other acc e.1 a e.2 (fun hh => hea hh.symm)
    · rw [hf]

theorem mbamFold_get (entries : List (Address × List (List Nat))) (a : Address) :
    addressMapGet (mbamFold entries) a
      = (entries.reverse.find? (fun e => e.1 = a)).map Prod.snd := by
  rw [mbamFold, addressMapGet_foldl]
  rcases hf : entries.reverse.find? (fun e => e.1 = a) with _ | d
  · rw [hf]
    simp [addressMapGet]
  · rw [hf]
    simp

theorem fixedRead_readU8 (buf : List Nat) (off : Nat) :
    FixedRead (readU8 buf off) off 1 buf.length := by
  constructor
  · intro h
    exact ⟨_, readU8_lt buf off (by omega)⟩
  · intro h
    rcases Nat.lt_or_ge buf.length off with hgt | hle
    · rw [readU8_past buf off hgt]; rfl
    · rw [readU8_at_end buf off (by omega)]; rfl

theorem fixedRead_readU16 (buf : List Nat) (off : Nat) :
    FixedRead (readU16 buf off) off 2 buf.length := by
  constructor
  · intro h
    exact ⟨_, readU16_ok buf off (by omega)⟩
  · intro h
    rcases Nat.lt_or_ge buf.length off with hgt | hle
    · rw [readU16_verify buf off hgt]; rfl
    · rw [readU16_trap buf off hle (by omega)]; rfl

theorem fixedRead_readU32 (le : Bool) (buf : List Nat) (off : Nat) :
    FixedRead (readU32 le buf off) off 4 buf.length := by
  constructor
  · intro h
    exact ⟨_, readU32_ok le buf off (by omega)⟩
  · intro h
    rcases Nat.lt_or_ge buf.length off with hgt | hle
    · rw [readU32_verify le buf off hgt]; rfl
    · rw [readU32_trap le buf off hle (by omega)]; rfl

theorem fixedRead_readU64 (buf : List Nat) (off : Nat) :
    FixedRead (readU64 buf off) off 8 buf.length := by
  constructor
  · intro h
    exact ⟨_, readU64_ok buf off (by omega)⟩
  · intro h
    rcases Nat.lt_or_ge buf.length off with hgt | hle
    · rw [readU64_verify buf off hgt]; rfl
    · rw [readU64_trap buf off hle (by omega)]; rfl

theorem fixedRead_readI64 (buf : List Nat) (off : Nat) :
    FixedRead (readI64 buf off) off 8 buf.length := by
  constructor
  · intro h
    exact ⟨_, readI64_ok buf off (by omega)⟩
  · intro h
    rcases Nat.lt_or_ge buf.length off with hgt | hle
    · rw [readI64_verify buf off hgt]; rfl
    · rw [readI64_trap buf off hle (by omega)]; rfl

theorem fixedRead_readFloat (buf : List Nat) (off : Nat) :
    FixedRead (readFloat buf off) off 4 buf.length := by
  constructor
  · intro h
    exact ⟨_, readFloat_ok buf off (by omega)⟩
  · intro h
    rw [readFloat_fail buf off (by omega)]; rfl

theorem fixedRead_readBoolean (buf : List Nat) (off : Nat) :
    FixedRead (readBoolean buf off) off 1 buf.length := by
  constructor
  · intro h
    exact ⟨_, readBoolean_ok buf off (by omega)⟩
  · intro h
    rcases Nat.lt_or_ge buf.length off with hgt | hle
    · rw [readBoolean, readU8_past buf off hgt]; rfl
    · rw [readBoolean, readU8_at_end buf off (by omega)]; rfl

theorem fixedRead_readBytesBE (buf : List Nat) (off n : Nat) :
    FixedRead (readBytesBE buf off n) off n buf.length := by
  constructor
  · intro h
    rcases Nat.eq_zero_or_pos n with h0 | hpos
    · subst h0
      exact ⟨[], by simp [readBytesBE]⟩
    · exact ⟨_, readBytesBE_ok buf n off (by omega)⟩
  · intro h
    have hpos : 0 < n := by omega
    rcases Nat.lt_or_ge buf.length off with hgt | hle
    · rw [readBytesBE_err_verify buf n off hgt hpos]; rfl
    · rw [readBytesBE_err_trap buf n off hle (by omega)]; rfl

theorem fixedRead_readU128 (buf : List Nat) (off : Nat) :
    FixedRead (readU128 buf off) off 16 buf.length := by
  constructor
  · intro h
    exact ⟨_, readU128_ok buf off (by omega)⟩
  · intro h
    rcases Nat.lt_or_ge buf.length off with hgt | hle
    · rw [readU128_verify buf off hgt]; rfl
    · rw [readU128_trap buf off hle (by omega)]; rfl

theorem fixedRead_readI128 (buf : List Nat) (off : Nat) :
    FixedRead (readI128 buf off) off 16 buf.length := by
  constructor
  · intro h
    exact ⟨_, readI128_ok buf off (by omega)⟩
  · intro h
    rcases Nat.lt_or_ge buf.length off with hgt | hle
    · rw [readI128_verify buf off hgt]; rfl
    · rw [readI128_trap buf off hle (by omega)]; rfl

theorem fixedRead_readU256 (buf : List Nat) (off : Nat) :
    FixedRead (readU256 buf off) off 32 buf.length := by
  constructor
  · intro h
    exact ⟨_, readU256_ok buf off (by omega)⟩
  · intro h
    rcases Nat.lt_or_ge buf.length off with hgt | hle
    · rw [readU256_verify buf off hgt]; rfl
    · rw [readU256_trap buf off hle (by omega)]; rfl

theorem fixedRead_readI256 (buf : List Nat) (off : Nat) :
    FixedRead (readI256 buf off) off 32 buf.length := by
  constructor
  · intro h
    exact ⟨_, readI256_ok buf off (by omega)⟩
  · intro h
    rcases Nat.lt_or_ge buf.length off with hgt | hle
    · rw [readI256_verify buf off hgt]; rfl
    · rw [readI256_trap buf off hle (by omega)]; rfl

theorem verifyIff_readU8 (buf : List Nat) (off : Nat) :
    (exceptIsVerify (readU8 buf off).1 = true) ↔ buf.length < off := by
  rcases Nat.lt_trichotomy off buf.length with hlt | heq | hgt
  · rw [readU8_lt buf off hlt]
    simp [exceptIsVerify]
    omega
  · rw [readU8_at_end buf off heq]
    simp [exceptIsVerify]
    omega
  · rw [readU8_past buf off hgt]
    simpa [exceptIsVerify] using hgt

theorem verifyIff_readU16 (buf : List Nat) (off : Nat) :
    (exceptIsVerify (readU16 buf off).1 = true) ↔ buf.length < off := by
  rcases Nat.lt_or_ge buf.length off with hgt | hle
  · rw [readU16_verify buf off hgt]
    simpa [exceptIsVerify] using hgt
  · constructor
    · intro h
      by_cases h2 : off + 2 ≤ buf.length
      · rw [readU16_ok buf off h2] at h
        simp [exceptIsVerify] at h
      · rw [readU16_trap buf off hle (by omega)] at h
        simp [exceptIsVerify] at h
    · intro h
      omega

theorem verifyIff_readU32 (le : Bool) (buf : List Nat) (off : Nat) :
    (exceptIsVerify (readU32 le buf off).1 = true) ↔ buf.length < off := by
  rcases Nat.lt_or_ge buf.length off with hgt | hle
  · rw [readU32_verify le buf off hgt]
    simpa [exceptIsVerify] using hgt
  · constructor
    · intro h
      by_cases h2 : off + 4 ≤ buf.length
      · rw [readU32_ok le buf off h2] at h
        simp [exceptIsVerify] at h
      · rw [readU32_trap le buf off hle (by omega)] at h
        simp [exceptIsVerify] at h
    · intro h
      omega

theorem verifyIff_readU64 (buf : List Nat) (off : Nat) :
    (exceptIsVerify (readU64 buf off).1 = true) ↔ buf.length < off := by
  rcases Nat.lt_or_ge buf.length off with hgt | hle
  · rw [readU64_verify buf off hgt]
    simpa [exceptIsVerify] using hgt
  · constructor
    · intro h
      by_cases h2 : off + 8 ≤ buf.length
      · rw [readU64_ok buf off h2] at h
        simp [exceptIsVerify] at h
      · rw [readU64_trap buf off hle (by omega)] at h
        simp [exceptIsVerify] at h
    · intro h
      omega

theorem verifyIff_readI64 (buf : List Nat) (off : Nat) :
    (exceptIsVerify (readI64 buf off).1 = true) ↔ buf.length < off := by
  rcases Nat.lt_or_ge buf.length off with hgt | hle
  · rw [readI64_verify buf off hgt]
    simpa [exceptIsVerify] using hgt
  · constructor
    · intro h
      by_cases h2 : off + 8 ≤ buf.length
      · rw [readI64_ok buf off h2] at h
        simp [exceptIsVerify] at h
      · rw [readI64_trap buf off hle (by omega)] at h
        simp [exceptIsVerify] at h
    · intro h
      omega

theorem verifyIff_readU128 (buf : List Nat) (off : Nat) :
    (exceptIsVerify (readU128 buf off).1 = true) ↔ buf.length < off := by
  rcases Nat.lt_or_ge buf.length off with hgt | hle
  · rw [readU128_verify buf off hgt]
    simpa [exceptIsVerify] using hgt
  · constructor
    · intro h
      by_cases h2 : off + 16 ≤ buf.length
      · rw [readU128_ok buf off h2] at h
        simp [exceptIsVerify] at h
      · rw [readU128_trap buf off hle (by omega)] at h
        simp [exceptIsVerify] at h
    · intro h
      omega

theorem verifyIff_readI128 (buf : List Nat) (off : Nat) :
    (exceptIsVerify (readI128 buf off).1 = true) ↔ buf.length < off := by
  rcases Nat.lt_or_ge buf.length off with hgt | hle
  · rw [readI128_verify buf off hgt]
    simpa [exceptIsVerify] using hgt
  · constructor
    · intro h
      by_cases h2 : off + 16 ≤ buf.length
      · rw [readI128_ok buf off h2] at h
        simp [exceptIsVerify] at h
      · rw [readI128_trap buf off hle (by omega)] at h
        simp [exceptIsVerify] at h
    · intro h
      omega

theorem verifyIff_readU256 (buf : List Nat) (off : Nat) :
    (exceptIsVerify (readU256 buf off).1 = true) ↔ buf.length < off := by
  rcases Nat.lt_or_ge buf.length off with hgt | hle
  · rw [readU256_verify buf off hgt]
    simpa [exceptIsVerify] using hgt
  · constructor
    · intro h
      by_cases h2 : off + 32 ≤ buf.length
      · rw [readU256_ok buf off h2] at h
        simp [exceptIsVerify] at h
      · rw [readU256_trap buf off hle (by omega)] at h
        simp [exceptIsVerify] at h
    · intro h
      omega

theorem verifyIff_readI256 (buf : List Nat) (off : Nat) :
    (exceptIsVerify (readI256 buf off).1 = true) ↔ buf.length < off := by
  rcases Nat.lt_or_ge buf.length off with hgt | hle
  · rw [readI256_verify buf off hgt]
    simpa [exceptIsVerify] using hgt
  · constructor
    · intro h
      by_cases h2 : off + 32 ≤ buf.length
      · rw [readI256_ok buf off h2] at h
        simp [exceptIsVerify] at h
      · rw [readI256_trap buf off hle (by omega)] at h
        simp [exceptIsVerify] at h
    · intro h
      omega

theorem readU16_err_off (buf : List Nat) (off : Nat) (e : DecodeError) (o : Nat)
    (h : readU16 buf off = (.error e, o)) : o = off := by
  rcases Nat.lt_or_ge buf.length off with hgt | hle
  · rw [readU16_verify buf off hgt] at h
    simp at h
    omega
  · by_cases h2 : off + 2 ≤ buf.length
    · rw [readU16_ok buf off h2] at h
      simp at h
    · rw [readU16_trap buf off hle (by omega)] at h
      simp at h
      omega

theorem readU32_err_off (le : Bool) (buf : List Nat) (off : Nat) (e : DecodeError) (o : Nat)
    (h : readU32 le buf off = (.error e, o)) : o = off := by
  rcases Nat.lt_or_ge buf.length off with hgt | hle
  · rw [readU32_verify le buf off hgt] at h
    simp at h
    omega
  · by_cases h2 : off + 4 ≤ buf.length
    · rw [readU32_ok le buf off h2] at h
      simp at h
    · rw [readU32_trap le buf off hle (by omega)] at h
      simp at h
      omega

theorem readU64_err_off (buf : List Nat) (off : Nat) (e : DecodeError) (o : Nat)
    (h : readU64 buf off = (.error e, o)) : o = off := by
  rcases Nat.lt_or_ge buf.length off with hgt | hle
  · rw [readU64_verify buf off hgt] at h
    simp at h
    omega
  · by_cases h2 : off + 8 ≤ buf.length
    · rw [readU64_ok buf off h2] at h
      simp at h
    · rw [readU64_trap buf off hle (by omega)] at h
      simp at h
      omega

theorem readI64_err_off (buf : List Nat) (off : Nat) (e : DecodeError) (o : Nat)
    (h : readI64 buf off = (.error e, o)) : o = off := by
  rcases Nat.lt_or_ge buf.length off with hgt | hle
  · rw [readI64_verify buf off hgt] at h
    simp at h
    omega
  · by_cases h2 : off + 8 ≤ buf.length
    · rw [readI64_ok buf off h2] at h
      simp at h
    · rw [readI64_trap buf off hle (by omega)] at h
      simp at h
      omega

theorem readFloat_err_off (buf : List Nat) (off : Nat) (e : DecodeError) (o : Nat)
    (h : readFloat buf off = (.error e, o)) : o = off := by
  by_cases h2 : off + 4 ≤ buf.length
  · rw [readFloat_ok buf off h2] at h
    simp at h
  · rw [readFloat_fail buf off (by omega)] at h
    simp at h
    omega

theorem readStringWithLength_zeroStop (buf : List Nat) (off L i : Nat)
    (hL : off + 2 ≤ buf.length)
    (hval : leVal buf off 2 = L)
    (hi : i < L)
    (hnz : ∀ j, j < i → buf.getD (off + 2 + j) 0 ≠ 0)
    (hzin : off + 2 + i < buf.length)
    (hz : buf.getD (off + 2 + i) 0 = 0) :
    readStringWithLength buf off = (.ok ((buf.drop (off + 2)).take i), off + 2 + i + 1) := by
  rw [readStringWithLength, readU16_ok buf off hL, hval]
  dsimp only
  rw [readString, readBytes]
  exact readBytesAux_zeroStop buf i L (off + 2) hi hnz hzin hz

theorem setStorageAt_find {P V : Type} [DecidableEq P] :
    ∀ (host : HostStorage P V) (ptr : Nat) (kh : P) (v : V),
    (setStorageAt host ptr kh v).find? (fun e => e.1 = (ptr, kh)) = some ((ptr, kh), v) := by
  intro host
  induction host with
  | nil => intro ptr kh v; simp [setStorageAt, List.find?]
  | cons e rest ih =>
    intro ptr kh v
    by_cases he : e.1 = (ptr, kh)
    · simp [setStorageAt, he, List.find?]
    · simp [setStorageAt, he, List.find?, ih]

theorem getStorageAt_set {P V : Type} [DecidableEq P]
    (host : HostStorage P V) (ptr : Nat) (kh : P) (v d : V) :
    getStorageAt (setStorageAt host ptr kh v) ptr kh d = v := by
  rw [getStorageAt, setStorageAt_find host ptr kh v]
  rfl

theorem hasStorageAt_set {P V : Type} [DecidableEq P] :
    ∀ (host : HostStorage P V) (ptr : Nat) (kh : P) (v : V),
    hasStorageAt (setStorageAt host ptr kh v) ptr kh = true := by
  intro host
  induction host with
  | nil => intro ptr kh v; simp [setStorageAt, hasStorageAt]
  | cons e rest ih =>
    intro ptr kh v
    by_cases he : e.1 = (ptr, kh)
    · simp [setStorageAt, he, hasStorageAt]
    · have hh := ih ptr kh v
      simp [hasStorageAt] at hh
      simp [setStorageAt, he, hasStorageAt]
      exact hh

/-- Claim C1, counterexample: over `[1,2,0,4,5]`, `readBytes(5, zeroStop=true)`
returns `[1,2]` as claimed, but the offset afterwards is 3 — the loop BREAKS
at the zero byte — not the starting offset + 5 the claim states. -/
theorem readBytes_zeroStop_full_consume_cex :
    readBytes [1, 2, 0, 4, 5] 0 5 true = (.ok [1, 2], 3) ∧ (3 : Nat) ≠ 0 + 5 := by
  decide

/-- Claim C1 (amended): for every declared count `n` and every buffer whose
first zero byte (within the declared window) sits at relative index `i`,
`readBytes(n, zeroStop=true)` returns the decoded bytes truncated at (and
excluding) that zero, and the cursor consumes only the `i + 1` bytes up to
and including the zero — not the full declared count. -/
theorem readBytes_zeroStop_truncates (buf : List Nat) (off n i : Nat)
    (hi : i < n)
    (hnz : ∀ j, j < i → buf.getD (off + j) 0 ≠ 0)
    (hin : off + i < buf.length)
    (hz : buf.getD (off + i) 0 = 0) :
    readBytes buf off n true = (.ok ((buf.drop off).take i), off + i + 1) := by
  rw [readBytes]
  exact readBytesAux_zeroStop buf i n off hi hnz hin hz

theorem readBytes_zeroStop_truncates_witness :
    readBytes [1, 2, 0, 4, 5] 0 5 true = (.ok [1, 2], 0 + 2 + 1) := by
  have h := readBytes_zeroStop_truncates [1, 2, 0, 4, 5] 0 5 2 (by decide)
      (by decide) (by decide) (by decide)
  simpa using h

/-- Claim C10: `readStringWithLength` reads a u16 length prefix and decodes
the following bytes in zero-stop mode: with the first zero at relative index
`i` (`i <` the prefixed length `L`), the returned string is the UTF-8
decoding of exactly the bytes before the zero, and the cursor consumes only
`i + 1` bytes after the prefix — not the full prefixed length. Strings are
modelled by the byte sequence handed to the UTF-8 decoder. -/
theorem readStringWithLength_zero_truncates (buf : List Nat) (off L i : Nat)
    (hL : off + 2 ≤ buf.length)
    (hval : leVal buf off 2 = L)
    (hi : i < L)
    (hnz : ∀ j, j < i → buf.getD (off + 2 + j) 0 ≠ 0)
    (hzin : off + 2 + i < buf.length)
    (hz : buf.getD (off + 2 + i) 0 = 0) :
    readStringWithLength buf off = (.ok ((buf.drop (off + 2)).take i), off + 2 + i + 1) :=
  readStringWithLength_zeroStop buf off L i hL hval hi hnz hzin hz

theorem readStringWithLength_zero_truncates_witness :
    readStringWithLength [3, 0, 97, 0, 99] 0 = (.ok [97], 4) := by
  have h := readStringWithLength_zero_truncates [3, 0, 97, 0, 99] 0 3 1 (by decide)
      (by decide) (by decide) (by decide) (by decide) (by decide)
  simpa using h

/-- Claim C4: a bounds-checked fixed-width read raises the `verifyEnd`
bounds error if and only if the pre-read offset is strictly greater than the
buffer length; `verifyEnd` itself passes exactly when `offset ≤ length`,
independently of its `size` argument, so `offset + width` is never
validated. -/
theorem verifyEnd_checks_only_offset (buf : List Nat) (off size : Nat) (le : Bool) :
    (verifyEnd buf off size = .ok () ↔ off ≤ buf.length) ∧
    (∀ s1 s2 : Nat, (verifyEnd buf off s1 = .ok ()) ↔ (verifyEnd buf off s2 = .ok ())) ∧
    ((exceptIsVerify (readU8 buf off).1 = true) ↔ buf.length < off) ∧
    ((exceptIsVerify (readU16 buf off).1 = true) ↔ buf.length < off) ∧
    ((exceptIsVerify (readU32 le buf off).1 = true) ↔ buf.length < off) ∧
    ((exceptIsVerify (readU64 buf off).1 = true) ↔ buf.length < off) ∧
    ((exceptIsVerify (readI64 buf off).1 = true) ↔ buf.length < off) ∧
    ((exceptIsVerify (readU128 buf off).1 = true) ↔ buf.length < off) ∧
    ((exceptIsVerify (readI128 buf off).1 = true) ↔ buf.length < off) ∧
    ((exceptIsVerify (readU256 buf off).1 = true) ↔ buf.length < off) ∧
    ((exceptIsVerify (readI256 buf off).1 = true) ↔ buf.length < off) := by
  have hv : ∀ s : Nat, (verifyEnd buf off s = .ok ()) ↔ off ≤ buf.length := by
    intro s
    by_cases hgt : off > buf.length
    · simp [verifyEnd, hgt]
    · simp [verifyEnd, hgt]
      omega
  exact ⟨hv size, fun s1 s2 => (hv s1).trans (hv s2).symm,
    verifyIff_readU8 buf off, verifyIff_readU16 buf off, verifyIff_readU32 le buf off,
    verifyIff_readU64 buf off, verifyIff_readI64 buf off, verifyIff_readU128 buf off,
    verifyIff_readI128 buf off, verifyIff_readU256 buf off, verifyIff_readI256 buf off⟩

/-- Claim C5: `encodePointer` is pure; its output is 32 bytes whose first 2
bytes are the namespace id in little-endian and whose remaining 30 bytes are
the first 30 bytes of the hash of the key, so varying the namespace alone
changes only the first 2 bytes. -/
theorem encodePointer_layout (sha : List Nat → List Nat) (ns : Nat) (typed : List Nat)
    (hlen : 30 ≤ (sha typed).length) (hns : ns < 65536) :
    encodePointer sha ns typed = encodePointer sha ns typed ∧
    (encodePointer sha ns typed).length = 32 ∧
    (encodePointer sha ns typed).take 2 = [ns % 256, ns / 256] ∧
    (encodePointer sha ns typed).drop 2 = (sha typed).take 30 ∧
    (∀ ns2 : Nat, (encodePointer sha ns2 typed).drop 2
      = (encodePointer sha ns typed).drop 2) := by
  refine ⟨rfl, ?_, ?_, ?_, ?_⟩
  · simp [encodePointer]
    omega
  · simp [encodePointer]
    omega
  · simp [encodePointer]
  · intro ns2
    simp [encodePointer]

theorem encodePointer_layout_witness :
    (encodePointer (fun _ => List.replicate 32 7) 258 [1]).take 2 = [2, 1] ∧
    (encodePointer (fun _ => List.replicate 32 7) 258 [1]).length = 32 := by
  have h := encodePointer_layout (fun _ => List.replicate 32 7) 258 [1]
      (by decide) (by decide)
  exact ⟨by simpa using h.2.2.1, h.2.1⟩

/-- Claim C2: every typed fixed-width read of `BytesReader` (including
`readFloat`, which skips `verifyEnd` but is still caught by the `DataView`
bounds check) fails with a bounds failure exactly when its required width
exceeds the remaining bytes, and otherwise succeeds, advancing the offset by
the consumed width. -/
theorem typedReads_bounds_contract (buf : List Nat) (off : Nat) (le : Bool) (count : Nat) :
    FixedRead (readU8 buf off) off 1 buf.length ∧
    FixedRead (readU16 buf off) off 2 buf.length ∧
    FixedRead (readU32 le buf off) off 4 buf.length ∧
    FixedRead (readU64 buf off) off 8 buf.length ∧
    FixedRead (readI64 buf off) off 8 buf.length ∧
    FixedRead (readFloat buf off) off 4 buf.length ∧
    FixedRead (readBoolean buf off) off 1 buf.length ∧
    FixedRead (readSelector buf off) off 4 buf.length ∧
    FixedRead (readU128 buf off) off 16 buf.length ∧
    FixedRead (readI128 buf off) off 16 buf.length ∧
    FixedRead (readU256 buf off) off 32 buf.length ∧
    FixedRead (readI256 buf off) off 32 buf.length ∧
    FixedRead (readAddress buf off) off ADDRESS_BYTE_LENGTH buf.length ∧
    FixedRead (readBytes buf off count false) off count buf.length := by
  refine ⟨fixedRead_readU8 buf off, fixedRead_readU16 buf off, fixedRead_readU32 le buf off,
    fixedRead_readU64 buf off, fixedRead_readI64 buf off, fixedRead_readFloat buf off,
    fixedRead_readBoolean buf off, fixedRead_readU32 false buf off,
    fixedRead_readU128 buf off, fixedRead_readI128 buf off, fixedRead_readU256 buf off,
    fixedRead_readI256 buf off, fixedRead_readBytesBE buf off ADDRESS_BYTE_LENGTH, ?_⟩
  rw [readBytes, readBytesAux_false buf count off]
  exact fixedRead_readBytesBE buf off count

theorem typedReads_bounds_contract_witness :
    (∃ v, readU32 true [1, 2, 3, 4] 0 = (Except.ok v, 0 + 4)) ∧
    exceptIsBounds (readU16 [7] 0).1 = true ∧
    exceptIsBounds (readFloat [7] 5).1 = true := by
  refine ⟨?_, ?_, ?_⟩
  · exact (typedReads_bounds_contract [1, 2, 3, 4] 0 true 0).2.2.1.1 (by decide)
  · exact (typedReads_bounds_contract [7] 0 true 0).2.1.2 (by decide)
  · exact (typedReads_bounds_contract [7] 5 true 0).2.2.2.2.2.1.2 (by decide)

/-- Claim C3, counterexample: `readU8` on an empty buffer fails, yet the
post-increment in `getUint8(this.currentOffset++)` has already advanced the
offset from 0 to 1 before the trap fires — a failing read does NOT leave the
offset unchanged. -/
theorem failing_readU8_moves_offset_cex :
    readU8 [] 0 = (.error .boundsAccess, 1) ∧ (1 : Nat) ≠ 0 := by
  decide

/-- Claim C3 (amended): starting from an in-bounds offset, every completed
read leaves the offset within the buffer length, and a read that would
exceed the buffer fails; but a failing read does not always leave the offset
unchanged: a failing `readU8` at the buffer end advances the offset by one
(and composite reads keep the offset consumed by their successful
sub-reads), while the failing multi-byte `DataView` reads
(`readU16/U32/U64/I64/Float`) do leave it unchanged. -/
theorem reader_offset_invariant_amended (buf : List Nat) (off : Nat) (le zs : Bool)
    (count : Nat) (hoff : off ≤ buf.length) :
    (∀ v o, readU8 buf off = (.ok v, o) → o ≤ buf.length) ∧
    (∀ v o, readU16 buf off = (.ok v, o) → o ≤ buf.length) ∧
    (∀ v o, readU32 le buf off = (.ok v, o) → o ≤ buf.length) ∧
    (∀ v o, readU64 buf off = (.ok v, o) → o ≤ buf.length) ∧
    (∀ v o, readI64 buf off = (.ok v, o) → o ≤ buf.length) ∧
    (∀ v o, readFloat buf off = (.ok v, o) → o ≤ buf.length) ∧
    (∀ v o, readBoolean buf off = (.ok v, o) → o ≤ buf.length) ∧
    (∀ v o, readU128 buf off = (.ok v, o) → o ≤ buf.length) ∧
    (∀ v o, readI128 buf off = (.ok v, o) → o ≤ buf.length) ∧
    (∀ v o, readU256 buf off = (.ok v, o) → o ≤ buf.length) ∧
    (∀ v o, readI256 buf off = (.ok v, o) → o ≤ buf.length) ∧
    (∀ v o, readAddress buf off = (.ok v, o) → o ≤ buf.length) ∧
    (∀ v o, readBytes buf off count zs = (.ok v, o) → o ≤ buf.length) ∧
    (∀ v o, readString buf off count = (.ok v, o) → o ≤ buf.length) ∧
    (∀ v o, readBytesWithLength buf off = (.ok v, o) → o ≤ buf.length) ∧
    (∀ v o, readStringWithLength buf off = (.ok v, o) → o ≤ buf.length) ∧
    (∀ v o, readAddressValueTuple buf off = (.ok v, o) → o ≤ buf.length) ∧
    (∀ v o, readMultiBytesAddressMap buf off = (.ok v, o) → o ≤ buf.length) ∧
    (off = buf.length → readU8 buf off = (.error .boundsAccess, off + 1)) ∧
    (∀ e o, readU16 buf off = (.error e, o) → o = off) ∧
    (∀ e o, readU32 le buf off = (.error e, o) → o = off) ∧
    (∀ e o, readU64 buf off = (.error e, o) → o = off) ∧
    (∀ e o, readI64 buf off = (.error e, o) → o = off) ∧
    (∀ e o, readFloat buf off = (.error e, o) → o = off) := by
  refine ⟨?_, ?_, ?_, ?_, ?_, ?_, ?_, ?_, ?_, ?_, ?_, ?_, ?_, ?_, ?_, ?_, ?_, ?_,
    ?_, ?_, ?_, ?_, ?_, ?_⟩
  · intro v o h
    obtain ⟨h1, h2, _⟩ := readU8_eq_ok buf off v o h
    omega
  · intro v o h
    obtain ⟨h1, h2⟩ := readU16_eq_ok buf off v o h
    omega
  · intro v o h
    obtain ⟨h1, h2⟩ := readU32_eq_ok le buf off v o h
    omega
  · intro v o h
    obtain ⟨h1, h2⟩ := readU64_eq_ok buf off v o h
    omega
  · intro v o h
    obtain ⟨h1, h2⟩ := readI64_eq_ok buf off v o h
    omega
  · intro v o h
    obtain ⟨h1, h2⟩ := readFloat_eq_ok buf off v o h
    omega
  · intro v o h
    rw [readBoolean] at h
    rcases hu : readU8 buf off with ⟨r, o1⟩
    rw [hu] at h
    cases r with
    | error e => simp at h
    | ok b =>
      simp at h
      obtain ⟨h1, h2, _⟩ := readU8_eq_ok buf off b o1 hu
      omega
  · intro v o h
    obtain ⟨h1, h2⟩ := readU128_eq_ok buf off v o h
    omega
  · intro v o h
    obtain ⟨h1, h2⟩ := readI128_eq_ok buf off v o h
    omega
  · intro v o h
    obtain ⟨h1, h2⟩ := readU256_eq_ok buf off v o h
    omega
  · intro v o h
    obtain ⟨h1, h2⟩ := readI256_eq_ok buf off v o h
    omega
  · intro v o h
    obtain ⟨h1, h2, _⟩ := readBytesBE_eq_ok buf ADDRESS_BYTE_LENGTH off v o hoff h
    omega
  · intro v o h
    exact readBytesAux_ok_le buf zs count off v o hoff h
  · intro v o h
    exact readBytesAux_ok_le buf true count off v o hoff h
  · intro v o h
    exact readBytesWithLength_ok_le buf off v o h
  · intro v o h
    exact readStringWithLength_ok_le buf off v o h
  · intro v o h
    exact readAddressValueTuple_ok_le buf off v o h
  · intro v o h
    exact readMultiBytesAddressMap_ok_le buf off v o h
  · intro heq
    exact readU8_at_end buf off heq
  · intro e o h
    exact readU16_err_off buf off e o h
  · intro e o h
    exact readU32_err_off le buf off e o h
  · intro e o h
    exact readU64_err_off buf off e o h
  · intro e o h
    exact readI64_err_off buf off e o h
  · intro e o h
    exact readFloat_err_off buf off e o h

theorem reader_offset_invariant_amended_witness :
    (2 : Nat) ≤ [5, 1].length ∧ readU8 [5] 1 = (.error .boundsAccess, 2) := by
  have h := reader_offset_invariant_amended [5, 1] 0 true true 0 (by decide)
  obtain ⟨c1, c2, c3, c4, c5, c6, c7, c8, c9, c10, c11, c12, c13, c14, c15, c16, c17,
    c18, c19, c20, c21, c22, c23, c24⟩ :=
    reader_offset_invariant_amended [5] 1 true true 0 (by decide)
  exact ⟨h.2.1 261 2 (by decide), c19 (by decide)⟩

/-- Claim C6: decoding an address→u256 map (u16 count then (address, u256)
pairs) fails with the `Revert('Duplicate address found in map')` validation
error whenever the same address occurs in two distinct pairs, and returns
the map of all decoded pairs when the addresses are pairwise distinct. -/
theorem readAddressValueTuple_duplicate_policy (ps : List (List Nat × List Nat))
    (h1 : ps.length < 65536)
    (hps : ∀ p ∈ ps, p.1.length = ADDRESS_BYTE_LENGTH ∧ p.2.length = 32) :
    (¬ (ps.map Prod.fst).Nodup →
      (readAddressValueTuple (encodeAVT ps) 0).1
        = .error (.validation "Duplicate address found in map")) ∧
    ((ps.map Prod.fst).Nodup →
      (readAddressValueTuple (encodeAVT ps) 0).1
        = .ok (ps.map (fun p => (p.1, beVal p.2)))) := by
  have henc := readAddressValueTuple_encode ps h1 hps
  have hfst : ((ps.map (fun p => (p.1, beVal p.2))).map Prod.fst) = ps.map Prod.fst := by
    simp [List.map_map, Function.comp]
  constructor
  · intro hdup
    rw [henc]
    exact insertPairs_err_of_dup (ps.map (fun p => (p.1, beVal p.2))) []
      (by rw [hfst]; exact hdup)
  · intro hnd
    rw [henc]
    have hok := insertPairs_ok_of_nodup (ps.map (fun p => (p.1, beVal p.2))) []
      (by rw [hfst]; exact hnd) (fun d _ => rfl)
    simpa using hok

theorem readAddressValueTuple_duplicate_policy_witness :
    (readAddressValueTuple (encodeAVT [(List.replicate 32 1, List.replicate 32 2),
        (List.replicate 32 1, List.replicate 32 2)]) 0).1
      = .error (.validation "Duplicate address found in map") :=
  (readAddressValueTuple_duplicate_policy
    [(List.replicate 32 1, List.replicate 32 2), (List.replicate 32 1, List.replicate 32 2)]
    (by decide) (by decide)).1 (by decide)

/-- Claim C7: under the host-storage model where `setStorageAt` followed by
`getStorageAt` returns the stored value and `hasStorageAt` reports presence,
`AddressMemoryMap.delete(key)` persists the table's configured default value
at the key's pointer (a tombstone, not removal): a subsequent `get` returns
the default and `has` still reports true. -/
theorem addressMemoryMap_delete_tombstone {K P V : Type} [DecidableEq P]
    (m : AddressMemoryMap K P V) (host : HostStorage P V) (key : K) :
    m.get (m.delete host key).1 key = m.defaultValue ∧
    m.has (m.delete host key).1 key = true ∧
    ((m.delete host key).1).find? (fun e => e.1 = (m.pointer, m.encodeKey key))
      = some ((m.pointer, m.encodeKey key), m.defaultValue) :=
  ⟨getStorageAt_set host m.pointer (m.encodeKey key) m.defaultValue m.defaultValue,
   hasStorageAt_set host m.pointer (m.encodeKey key) m.defaultValue,
   setStorageAt_find host m.pointer (m.encodeKey key) m.defaultValue⟩

/-- Claim C8: `MultiAddressMemoryMap.set(key, aggregator)` first ensures an
aggregator exists for the key (creating the default empty one if missing)
and then unconditionally overwrites the entry with the supplied aggregator —
so afterwards the entry for the key is exactly the caller-supplied
aggregator, whatever was stored before, and other keys are untouched. -/
theorem multiAddressMemoryMap_set_overwrites {V : Type} (m : MultiAddressMemoryMap V)
    (key : List Nat) (agg : Uint8ArrayMerger V) :
    addressMapGet (m.set key agg).entries key = some agg ∧
    addressMapHas (m.set key agg).entries key = true ∧
    (∀ a : Address, a ≠ key →
      addressMapGet (m.set key agg).entries a = addressMapGet m.entries a) := by
  by_cases hk : addressMapHas m.entries key
  · refine ⟨?_, ?_, ?_⟩
    · simp [MultiAddressMemoryMap.set, MultiAddressMemoryMap.createKeyMerger, hk,
        addressMapGet_set_self]
    · simp [MultiAddressMemoryMap.set, MultiAddressMemoryMap.createKeyMerger, hk,
        addressMapHas_set_self]
    · intro a hne
      simp [MultiAddressMemoryMap.set, MultiAddressMemoryMap.createKeyMerger, hk,
        addressMapGet_set_other m.entries key a agg hne]
  · refine ⟨?_, ?_, ?_⟩
    · simp [MultiAddressMemoryMap.set, MultiAddressMemoryMap.createKeyMerger, hk,
        addressMapGet_set_self]
    · simp [MultiAddressMemoryMap.set, MultiAddressMemoryMap.createKeyMerger, hk,
        addressMapHas_set_self]
    · intro a hne
      simp [MultiAddressMemoryMap.set, MultiAddressMemoryMap.createKeyMerger, hk]
      rw [addressMapGet_set_other _ key a agg hne,
        addressMapGet_set_other m.entries key a _ hne]

theorem multiAddressMemoryMap_set_overwrites_witness :
    addressMapGet ((MultiAddressMemoryMap.mk 1 (0 : Nat) []).set [5]
        (Uint8ArrayMerger.mk [5] 1 0 [])).entries [5]
      = some (Uint8ArrayMerger.mk [5] 1 0 []) ∧
    addressMapGet ((MultiAddressMemoryMap.mk 1 (0 : Nat) []).set [5]
        (Uint8ArrayMerger.mk [5] 1 0 [])).entries [9]
      = addressMapGet (MultiAddressMemoryMap.mk 1 (0 : Nat) []).entries [9] := by
  have h := multiAddressMemoryMap_set_overwrites (MultiAddressMemoryMap.mk 1 (0 : Nat) [])
      [5] (Uint8ArrayMerger.mk [5] 1 0 [])
  exact ⟨h.1, h.2.2 [9] (by decide)⟩

/-- Claim C9: a call-batch byte sequence within the size caps (at most 8
addresses, at most 10 blobs each) that contains the same address in two
entries still decodes successfully — `readMultiBytesAddressMap` performs no
duplicate check — and the returned map binds every address to the blob list
of its LATEST entry (`AddressMap.set` overwrites), unlike the address→u256
decoder, which rejects duplicates. -/
theorem readMultiBytesAddressMap_duplicates_last_wins
    (entries : List (List Nat × List (List Nat)))
    (hsize : entries.length ≤ 8)
    (hes : ∀ e ∈ entries, e.1.length = ADDRESS_BYTE_LENGTH ∧ e.2.length ≤ 10 ∧
      ∀ b ∈ e.2, b.length < 4294967296)
    (hdup : ¬ (entries.map Prod.fst).Nodup) :
    (readMultiBytesAddressMap (encodeMBAM entries) 0).1 = .ok (mbamFold entries) ∧
    (∀ a : Address, addressMapGet (mbamFold entries) a
      = (entries.reverse.find? (fun e => e.1 = a)).map Prod.snd) := by
  constructor
  · rw [readMultiBytesAddressMap_encode entries hsize hes]
  · intro a
    exact mbamFold_get entries a

theorem readMultiBytesAddressMap_duplicates_last_wins_witness :
    (readMultiBytesAddressMap (encodeMBAM [(List.replicate 32 7, [[1]]),
        (List.replicate 32 7, [])]) 0).1
      = .ok (mbamFold [(List.replicate 32 7, [[1]]), (List.replicate 32 7, [])]) ∧
    addressMapGet (mbamFold [(List.replicate 32 7, [[1]]), (List.replicate 32 7, [])])
        (List.replicate 32 7) = some [] := by
  have h := readMultiBytesAddressMap_duplicates_last_wins
      [(List.replicate 32 7, [[1]]), (List.replicate 32 7, [])]
      (by decide) (by decide) (by decide)
  refine ⟨h.1, ?_⟩
  rw [h.2 (List.replicate 32 7)]
  decide

